import Mathlib

/-!
Verification of the orchestration core of the civic-digital-infrastructure
platform: the parallel agent coordinator (`src/coordinator/coordinator.py`,
`src/coordinator/job_context.py`) and the playbook workflow engine
(`src/partnerships/core/workflow_engine.py`).

The Python code is shallowly embedded: dictionaries become association
lists with Python-dict insertion semantics (`listInsert`), JSON-like
Python values become the inductive `Value` (Python floats are modelled as
rationals), exceptions become `Except`/`Option`, and wall-clock readings
(step durations, timestamps) are modelled as zero since no claim depends
on real time.  Time-valued quantities that the code computes
deterministically (retry backoff sleeps, which are `0.5 * 2^attempt`
seconds) are modelled exactly, in milliseconds.
-/

namespace Civic

/-- JSON-like Python value: the payloads stored in playbook configs,
execution-context variables, agent results and job-record artifacts.
Python `None` is `null`; numbers (Python ints and floats) are modelled as
rationals. -/
inductive Value where
  | null : Value
  | str (s : String) : Value
  | num (q : Rat) : Value
  | bool (b : Bool) : Value
  | list (xs : List Value) : Value
  | dict (kvs : List (String × Value)) : Value

/-- Python truthiness of a `Value`: `None`, `""`, `0`, `False`, `[]` and
the empty dict are falsy, everything else truthy. -/
def pyTruthy : Value → Bool
  | .null => false
  | .str s => s != ""
  | .num q => q != 0
  | .bool b => b
  | .list [] => false
  | .list (_ :: _) => true
  | .dict [] => false
  | .dict (_ :: _) => true

/-- Python equality test of a `Value` against a string literal (used for
`x in someList` membership checks): a string compares by content, any
non-string compares unequal. -/
def isStrEq (t : String) : Value → Bool
  | .str s => s == t
  | _ => false

/-- In-place mutation of the value stored under key `k` of a dict
(association list); entries with other keys are untouched. -/
def mapEntry {β : Type} (l : List (String × β)) (k : String) (f : β → β) :
    List (String × β) :=
  l.map (fun p => if p.1 = k then (p.1, f p.2) else p)

/-- Python `d[k] = v` on a dict rendered as an association list: if the key
is present its value is replaced in place (insertion position kept),
otherwise the pair is appended. -/
def listInsert {β : Type} (l : List (String × β)) (k : String) (v : β) :
    List (String × β) :=
  if (l.lookup k).isSome then mapEntry l k (fun _ => v)
  else l ++ [(k, v)]

/-! ## Workflow engine data model (`workflow_engine.py`) -/

/-- Status of an individual workflow step (`StepStatus`).  The engine only
ever constructs `success` and `failed`. -/
inductive StepStatus where
  | pending | running | success | failed | skipped
deriving DecidableEq

/-- String value of a `StepStatus`, as stored in execution reports. -/
def StepStatus.toStr : StepStatus → String
  | .pending => "pending"
  | .running => "running"
  | .success => "success"
  | .failed => "failed"
  | .skipped => "skipped"

/-- One playbook step (a Python dict).  `id` is mandatory (the code indexes
`step['id']`); the other fields are read with `.get` and so are optional
with the defaults the code supplies. -/
structure Step where
  id : String
  action : Option String
  connector : Option String
  config : List (String × Value)
  dependencies : List String

/-- A playbook document: id, optional `errorHandling` policy, steps. -/
structure Playbook where
  id : String
  errorHandling : Option String
  steps : List Step

/-- Execution context for one playbook run (`ExecutionContext`); the
wall-clock `started_at` is not modelled (no claim depends on it). -/
structure ExecutionContext where
  execution_id : String
  playbook_id : String
  varMap : List (String × Value)

/-- Lookup of `ExecutionContext.get_variable`: `variables.get(key)`. -/
def ExecutionContext.getVariable (ctx : ExecutionContext) (key : String) :
    Option Value :=
  ctx.varMap.lookup key

/-- Result of executing one step (`StepResult`).  `duration_ms` is
wall-clock time, modelled as zero. -/
structure StepResult where
  step_id : String
  status : StepStatus
  output : Option Value
  error : Option String
  duration_ms : Nat

/-- External connector capability contract consumed by the engine:
`execute_query(query, params)` and `send_message(recipients, template,
variables)`.  Connectors are out-of-scope collaborators, so their behaviour
is an arbitrary function; raising is modelled by `Except.error`. -/
structure Connector where
  executeQuery : Option Value → List (String × Value) → Except String Value
  sendMessage : Value → Option Value → List (String × Value) →
    Except String (List Value)

/-- Connector registry of the engine: name to connector.  `none` models a
name absent from the registry (or a `None` connector name). -/
def ConnectorRegistry : Type := String → Option Connector

/-- Rendering of an optional string the way a Python f-string renders it:
`None` prints as "None". -/
def optStr : Option String → String
  | none => "None"
  | some s => s

/-- Interpolation of a single parameter value
(`WorkflowEngine._interpolate_variables`, loop body): a string value
starting with `"${"` is replaced by
`context.get_variable(value[2:-1])` (Python `None` becoming `null`),
every other value passes through unchanged. -/
def interpValue (ctx : ExecutionContext) : Value → Value
  | .str s =>
      if s.startsWith "$\x7b" then
        (ctx.getVariable ((s.drop 2).dropRight 1)).getD .null
      else .str s
  | v => v

/-- The `_interpolate_variables` loop: builds the `result` dict by
assigning `result[key]` for each `(key, value)` of `data` in order. -/
def interpolateVariables (data : List (String × Value))
    (ctx : ExecutionContext) : List (String × Value) :=
  data.foldl (fun acc kv => listInsert acc kv.1 (interpValue ctx kv.2)) []

/-- Subset of Python's `float(string)` used by `_evaluate_criterion` to
parse threshold bounds: optional surrounding whitespace, optional sign,
decimal digits with an optional fractional part.  (Exponent, `inf`/`nan`
and underscore forms are not modelled; no claim exercises them.)
Returns `none` where Python raises `ValueError`. -/
def parseFloat (s : String) : Option Rat :=
  let t := s.trim
  let sb : Int × String :=
    if t.startsWith "-" then (-1, t.drop 1)
    else if t.startsWith "+" then (1, t.drop 1)
    else (1, t)
  match sb.2.splitOn "." with
  | [ip] => (ip.toNat?).map (fun n => ((sb.1 * n : Int) : Rat))
  | [ip, fp] =>
      if ip = "" && fp = "" then none
      else
        match (if ip = "" then some 0 else ip.toNat?),
              (if fp = "" then some 0 else fp.toNat?) with
        | some i, some f =>
            let den : Nat := 10 ^ fp.length
            some ((sb.1 : Rat) * (((i * den + f : Nat) : Rat) / (den : Rat)))
        | _, _ => none
  | _ => none

/-- Lookup `variables.get(metricKey)` where the key is itself a `Value`
(`criterion.get('metric')` may be any value or absent): a string key is
looked up, other hashable values are simply absent from the string-keyed
dict, and unhashable values (lists/dicts) raise `TypeError`. -/
def getVariableByValue (ctx : ExecutionContext) : Option Value →
    Except String (Option Value)
  | none => .ok none
  | some (.str s) => .ok (ctx.getVariable s)
  | some (.list _) => .error "TypeError: unhashable type"
  | some (.dict _) => .error "TypeError: unhashable type"
  | some _ => .ok none

/-- Comparison `value > target` (or `<` when `gt = false`) performed by
`_evaluate_criterion` after the threshold is parsed.  Python numbers and
bools (bools are ints) compare numerically; comparing a string, list or
dict against a float raises `TypeError`.  `None` never reaches here (the
code returns `False` for it earlier). -/
def pyCompare (v : Value) (target : Rat) (gt : Bool) : Except String Bool :=
  match v with
  | .num q => .ok (if gt then decide (q > target) else decide (q < target))
  | .bool b =>
      let q : Rat := if b then 1 else 0
      .ok (if gt then decide (q > target) else decide (q < target))
  | _ => .error "TypeError: comparison not supported"

/-- The `_evaluate_criterion(metric, threshold, context)` helper:
look the metric up in the variables (missing or `None`-valued metric
evaluates to `False`), then parse the threshold string around `'>'` or
`'<'` (taking the last split segment as the numeric bound) and compare.
A threshold containing neither comparator yields `False`.  Non-string
thresholds raise (`in` / `.split` on unsupported types). -/
def evaluateCriterion (ctx : ExecutionContext) (metric : Option Value)
    (threshold : Option Value) : Except String Bool := do
  let v ← getVariableByValue ctx metric
  match v with
  | none => .ok false
  | some .null => .ok false
  | some value =>
    match threshold with
    | none => .error "TypeError: argument of type NoneType is not iterable"
    | some (.str t) =>
        if t.contains '>' then
          match parseFloat (((t.splitOn ">").getLastD "")) with
          | none => .error "ValueError: could not convert string to float"
          | some target => pyCompare value target true
        else if t.contains '<' then
          match parseFloat (((t.splitOn "<").getLastD "")) with
          | none => .error "ValueError: could not convert string to float"
          | some target => pyCompare value target false
        else .ok false
    | some (.list xs) =>
        -- `'>' in list` is element membership; if it (or `'<'`) is a member
        -- the subsequent `.split` on a list raises AttributeError.
        if xs.any (isStrEq ">") || xs.any (isStrEq "<") then
          .error "AttributeError: list has no attribute split"
        else .ok false
    | some (.dict kvs) =>
        if (kvs.lookup ">").isSome || (kvs.lookup "<").isSome then
          .error "AttributeError: dict has no attribute split"
        else .ok false
    | some _ => .error "TypeError: argument is not iterable"

/-- Python iteration over the `criteria` config value
(`for criterion in criteria`): lists yield their elements, dicts their
keys, strings their characters; other values raise `TypeError`. -/
def iterValue : Value → Except String (List Value)
  | .list xs => .ok xs
  | .dict kvs => .ok (kvs.map (fun p => .str p.1))
  | .str s => .ok (s.toList.map (fun c => .str c.toString))
  | _ => .error "TypeError: not iterable"

/-- The criteria fold of `_execute_evaluate_step`:
`passed = passed and _evaluate_criterion(...)`.  Python's `and`
short-circuits, so once `passed` is `False` later criteria are not
evaluated (and cannot raise). -/
def evalCriteriaFold (ctx : ExecutionContext) :
    List Value → Bool → Except String Bool
  | [], passed => .ok passed
  | c :: rest, passed =>
      if passed then
        match c with
        | .dict kvs => do
            let b ← evaluateCriterion ctx (kvs.lookup "metric")
              (kvs.lookup "threshold")
            evalCriteriaFold ctx rest b
        | _ => .error "AttributeError: criterion has no attribute get"
      else evalCriteriaFold ctx rest false

/-- Handler `_execute_evaluate_step(config, context)`. -/
def execEvaluateStep (config : List (String × Value))
    (ctx : ExecutionContext) : Except String Value := do
  let criteria := (config.lookup "criteria").getD (.list [])
  let items ← iterValue criteria
  let passed ← evalCriteriaFold ctx items true
  .ok (.dict [("passed", .bool passed)])

/-- Handler `_execute_query_step(connector_name, config, context)`: resolve the
connector, interpolate the params dict, run the query, wrap the result. -/
def execQueryStep (reg : ConnectorRegistry) (cname : Option String)
    (config : List (String × Value)) (ctx : ExecutionContext) :
    Except String Value :=
  match cname.bind reg with
  | none => .error ("Connector not found: " ++ optStr cname)
  | some c =>
      let query := config.lookup "query"
      match (config.lookup "params").getD (.dict []) with
      | .dict kvs => do
          let r ← c.executeQuery query (interpolateVariables kvs ctx)
          .ok (.dict [("data", r)])
      | _ => .error "AttributeError: params has no attribute items"

/-- Resolution of the `data_mapping` of `_execute_template_step`:
`resolved[key] = context.get_variable(source)` for each mapping entry;
a `get_variable` on an unhashable source raises. -/
def resolveMapping (ctx : ExecutionContext) :
    List (String × Value) → List (String × Value) →
    Except String (List (String × Value))
  | acc, [] => .ok acc
  | acc, (k, src) :: rest => do
      let v ← getVariableByValue ctx (some src)
      resolveMapping ctx (listInsert acc k (v.getD .null)) rest

/-- Handler `_execute_template_step(config, context)`. -/
def execTemplateStep (config : List (String × Value))
    (ctx : ExecutionContext) : Except String Value :=
  let templateName := (config.lookup "template").getD .null
  match (config.lookup "data_mapping").getD (.dict []) with
  | .dict kvs => do
      let resolved ← resolveMapping ctx [] kvs
      .ok (.dict [("template", templateName), ("data", .dict resolved)])
  | _ => .error "AttributeError: data_mapping has no attribute items"

/-- Handler `_execute_communicate_step(connector_name, config, context)`. -/
def execCommunicateStep (reg : ConnectorRegistry) (cname : Option String)
    (config : List (String × Value)) (ctx : ExecutionContext) :
    Except String Value :=
  match cname.bind reg with
  | none => .error ("Connector not found: " ++ optStr cname)
  | some c => do
      let recipients := (config.lookup "recipients").getD (.list [])
      let template := config.lookup "template"
      let confirmations ← c.sendMessage recipients template ctx.varMap
      .ok (.dict [("sent_count", .num (confirmations.length : Rat))])

/-- Dispatcher `WorkflowEngine._execute_step(step, context)`: dispatch on the step's
`action`; any exception raised by a handler (or an unknown action) is
caught and turned into a `failed` `StepResult`, so this function is total
and never raises.  Wall-clock durations are modelled as zero. -/
def execStep (reg : ConnectorRegistry) (st : Step)
    (ctx : ExecutionContext) : StepResult :=
  let run : Except String Value :=
    match st.action with
    | some "query" => execQueryStep reg st.connector st.config ctx
    | some "evaluate" => execEvaluateStep st.config ctx
    | some "template" => execTemplateStep st.config ctx
    | some "communicate" => execCommunicateStep reg st.connector st.config ctx
    | other => .error ("Unknown action: " ++ optStr other)
  match run with
  | .ok out =>
      { step_id := st.id, status := .success, output := some out,
        error := none, duration_ms := 0 }
  | .error e =>
      { step_id := st.id, status := .failed, output := none,
        error := some e, duration_ms := 0 }

/-! ## Dependency graph (`DependencyGraph`)

`__init__` builds `self.steps = {step['id']: step for step in steps}` and
`self.adjacency = {step['id']: step.get('dependencies', []) for step in
steps}`; neither raises.  `topological_sort` runs a recursive
depth-first `visit` over a mutable `visited` set, appending each step
after its dependencies; visiting an id that is not a step key raises
`KeyError` at `self.steps[step_id]`.  The Lean recursion carries a fuel
counter; `fuelExhausted` is proved unreachable for the fuel the sort
supplies (`visitDeps_no_fuel_error` and friends), so the embedding's
error behaviour coincides with the Python `KeyError`. -/

/-- The two ways the embedded sort can stop abnormally: the Python
`KeyError` on a missing step id, and the (unreachable) fuel bound. -/
inductive SortErr where
  | keyError (id : String)
  | fuelExhausted
deriving DecidableEq

/-- The `DependencyGraph` object: both dicts, in insertion order. -/
structure DependencyGraph where
  steps : List (String × Step)
  adjacency : List (String × List String)

/-- Graph construction (`DependencyGraph.__init__` together with
`_build_adjacency`): two dict comprehensions keyed by `step['id']`
(a duplicate id overwrites in place, exactly like a Python dict). -/
def buildGraph (steps : List Step) : DependencyGraph :=
  { steps := steps.foldl (fun acc st => listInsert acc st.id st) []
    adjacency :=
      steps.foldl (fun acc st => listInsert acc st.id st.dependencies) [] }

/-- Accessor `self.adjacency.get(step_id, [])`. -/
def adjOf (g : DependencyGraph) (sid : String) : List String :=
  (g.adjacency.lookup sid).getD []

/-- Number of step ids not yet visited: the termination measure showing
the fuel supplied by `topological_sort` is never exhausted. -/
def muCount (g : DependencyGraph) (visited : List String) : Nat :=
  ((g.steps.map Prod.fst).filter (fun i => decide (i ∉ visited))).length

/-- The `for dep_id in self.adjacency.get(step_id, [])` loop inside
`visit`, parameterised by the visit function applied to each
dependency. -/
def visitDepsWith
    (visit : String → List String → List Step →
      Except SortErr (List String × List Step)) :
    List String → List String → List Step →
    Except SortErr (List String × List Step)
  | [], visited, res => .ok (visited, res)
  | d :: rest, visited, res =>
      match visit d visited res with
      | .error e => .error e
      | .ok (v1, r1) => visitDepsWith visit rest v1 r1

/-- The recursive `visit(step_id)` of `topological_sort`: return if
already visited, otherwise mark visited, visit each dependency, then
append `self.steps[step_id]` (raising `KeyError` if the id is not a step
key).  `visited` is the mutable set, `res` the accumulating result. -/
def visitStep (g : DependencyGraph) : Nat → String → List String →
    List Step → Except SortErr (List String × List Step)
  | 0, _, _, _ => .error .fuelExhausted
  | f + 1, sid, visited, res =>
      if sid ∈ visited then .ok (visited, res)
      else
        match visitDepsWith (visitStep g f) (adjOf g sid) (sid :: visited) res with
        | .error e => .error e
        | .ok (v1, r1) =>
            match g.steps.lookup sid with
            | none => .error (.keyError sid)
            | some st => .ok (v1, r1 ++ [st])

/-- The `for step_id in self.steps: visit(step_id)` driver of
`topological_sort`.  Each top-level call receives fuel
`g.steps.length + 1`, which is proved sufficient. -/
def sortSteps (g : DependencyGraph) :
    List String → List String → List Step →
    Except SortErr (List String × List Step)
  | [], visited, res => .ok (visited, res)
  | k :: ks, visited, res =>
      match visitStep g (g.steps.length + 1) k visited res with
      | .error e => .error e
      | .ok (v1, r1) => sortSteps g ks v1 r1

/-- Method `DependencyGraph.topological_sort()`. -/
def topologicalSort (g : DependencyGraph) : Except SortErr (List Step) :=
  (sortSteps g (g.steps.map Prod.fst) [] []).map Prod.snd

/-! ## Workflow engine driver (`WorkflowEngine.execute_playbook`) -/

/-- A step entry of the execution report (the dict appended to
`execution_result['steps']`). -/
structure StepReport where
  step_id : String
  status : String
  output : Option Value
  error : Option String
  duration_ms : Nat

/-- The execution report returned by `execute_playbook`.  The wall-clock
`started_at` / `completed_at` timestamps are not modelled; `error` is
absent (`none`) on the success path. -/
structure ExecReport where
  execution_id : String
  playbook_id : String
  status : String
  steps : List StepReport
  error : Option String

/-- Conversion of a `StepResult` to its report dict. -/
def stepToReport (r : StepResult) : StepReport :=
  { step_id := r.step_id, status := r.status.toStr, output := r.output,
    error := r.error, duration_ms := r.duration_ms }

/-- The fresh `ExecutionContext` built at the top of `execute_playbook`:
empty variables map. -/
def freshContext (pb : Playbook) (executionId : String) :
    ExecutionContext :=
  { execution_id := executionId, playbook_id := pb.id, varMap := [] }

/-- The step loop of `execute_playbook`: execute each sorted step, append
its report, and — only when the step failed and `errorHandling ==
'abort'` — raise, which the surrounding `except` turns into a failed
report.  Returns the accumulated step reports and the raised message (if
any). -/
def execLoop (reg : ConnectorRegistry) (ctx : ExecutionContext)
    (errorHandling : Option String) :
    List Step → List StepReport → List StepReport × Option String
  | [], acc => (acc, none)
  | s :: rest, acc =>
      let r := execStep reg s ctx
      let acc1 := acc ++ [stepToReport r]
      if r.status = .failed ∧ errorHandling = some "abort" then
        (acc1, some ("Step failed: " ++ optStr r.error))
      else
        execLoop reg ctx errorHandling rest acc1

/-- Message of the exception the sort raises, as `str(e)` renders it
(Python renders `str` of a `KeyError` as the missing key wrapped in
single quotation marks). -/
def sortErrMsg : SortErr → String
  | .keyError sid => "\x27" ++ sid ++ "\x27"
  | .fuelExhausted => "fuel exhausted"

/-- Driver `WorkflowEngine.execute_playbook(playbook, execution_id)`: build the
dependency graph, run the steps in sorted order, and assemble the report;
every exception (a `KeyError` from the sort, or the abort-policy raise) is
caught and recorded as overall status `failed`. -/
def executePlaybook (reg : ConnectorRegistry) (pb : Playbook)
    (executionId : String) : ExecReport :=
  let ctx := freshContext pb executionId
  match topologicalSort (buildGraph pb.steps) with
  | .error e =>
      { execution_id := executionId, playbook_id := pb.id,
        status := "failed", steps := [], error := some (sortErrMsg e) }
  | .ok sorted =>
      match execLoop reg ctx pb.errorHandling sorted [] with
      | (reports, none) =>
          { execution_id := executionId, playbook_id := pb.id,
            status := "success", steps := reports, error := none }
      | (reports, some msg) =>
          { execution_id := executionId, playbook_id := pb.id,
            status := "failed", steps := reports, error := some msg }

/-! ## Job record (`job_context.py`) -/

/-- Agent execution status (`AgentStatus`). -/
inductive AgentStatus where
  | pending | active | completed | failed | timeout
deriving DecidableEq

/-- Terminal statuses: completed, failed, timeout. -/
def AgentStatus.isTerminal : AgentStatus → Bool
  | .completed => true
  | .failed => true
  | .timeout => true
  | _ => false

/-- Per-agent state tracked in the Job Record (`AgentState`).  `progress`
and the two timestamps are never written by the coordinator code paths
modelled here; `latency_ms` is the derived property `end - start`. -/
structure AgentState where
  name : String
  status : AgentStatus
  progress : Rat
  error : Option String
  result : Option Value
  timestamp_start : Option Nat
  timestamp_end : Option Nat

/-- A fresh `AgentState(name=n)` with the dataclass defaults. -/
def AgentState.fresh (n : String) : AgentState :=
  { name := n, status := .pending, progress := 0, error := none,
    result := none, timestamp_start := none, timestamp_end := none }

/-- The Job Record (`JobContext`): the shared blackboard.
`timestamp_created` is wall clock and not modelled. -/
structure JobContext where
  job_id : String
  task : List (String × Value)
  artifacts : List (String × Value)
  constraints : List String
  decisions : List Value
  agent_state : List (String × AgentState)

/-- Constructor `JobContext(job_id=j)` with dataclass defaults: `__post_init__`
creates the three default role entries when no `agent_state` is given. -/
def JobContext.create (j : String) : JobContext :=
  { job_id := j, task := [], artifacts := [], constraints := [],
    decisions := [],
    agent_state := [("collector", AgentState.fresh "collector"),
                    ("drafter", AgentState.fresh "drafter"),
                    ("validator", AgentState.fresh "validator")] }

/-- The fixed role filter table of `get_agent_context`
(`filters.get(role, [])`). -/
def roleFilters (role : String) : List String :=
  if role = "collector" then ["task", "constraints"]
  else if role = "drafter" then ["task", "artifacts", "decisions", "constraints"]
  else if role = "validator" then ["task", "artifacts", "constraints"]
  else []

/-- Lookup `getattr(self, k)` for the four field names the filter table can
produce, as a `Value`; `none` for any other name (`hasattr` false). -/
def JobContext.fieldGet (jc : JobContext) (k : String) : Option Value :=
  if k = "task" then some (.dict jc.task)
  else if k = "artifacts" then some (.dict jc.artifacts)
  else if k = "constraints" then some (.list (jc.constraints.map .str))
  else if k = "decisions" then some (.list jc.decisions)
  else none

/-- Method `JobContext.get_agent_context(role)`: the role-filtered view
`\x7bk: getattr(self, k) for k in relevant_keys if hasattr(self, k)\x7d`. -/
def JobContext.getAgentContext (jc : JobContext) (role : String) :
    List (String × Value) :=
  (roleFilters role).filterMap (fun k => (jc.fieldGet k).map (fun v => (k, v)))

/-- The body of `update_agent_state` applied to the existing state: the
status is always assigned, while `result` and `error` are assigned only
when truthy (`if result:` / `if error:`). -/
def applyStateUpdate (a : AgentState) (status : AgentStatus)
    (result : Option Value) (error : Option String) : AgentState :=
  let a1 := { a with status := status }
  let a2 := match result with
    | some r => if pyTruthy r then { a1 with result := some r } else a1
    | none => a1
  match error with
  | some e => if e != "" then { a2 with error := some e } else a2
  | none => a2

/-- Method `JobContext.update_agent_state(name, status, result, error)`: a no-op
for an unknown name; otherwise `applyStateUpdate` on that entry. -/
def updateAgentState (jc : JobContext) (name : String) (status : AgentStatus)
    (result : Option Value) (error : Option String) : JobContext :=
  if (jc.agent_state.lookup name).isSome then
    let updated :=
      mapEntry jc.agent_state name (fun a => applyStateUpdate a status result error)
    { jc with agent_state := updated }
  else jc

/-- The direct field assignment
`self.global_state.agent_state[agent_name].status = AgentStatus.ACTIVE`
(line 83 of `coordinator.py`); the caller has already established that the
name is present (otherwise that line raises `KeyError`). -/
def setAgentStatus (jc : JobContext) (name : String) (status : AgentStatus) :
    JobContext :=
  let updated := mapEntry jc.agent_state name (fun a => { a with status := status })
  { jc with agent_state := updated }

/-! ## Agent coordinator (`coordinator.py`)

`execute_parallel` launches one `_run_agent_with_resilience` coroutine per
registered agent, waits for all of them (`asyncio.gather`,
`return_exceptions=True`), then merges the results sequentially.  The
concurrent phase is modelled sequentially per agent, which is faithful
because each coroutine touches only its own `agent_state[name]` entry and
its own `self.metrics[name]` slot, so the interleaving of distinct agents'
writes cannot be observed through the final state.  Each agent's work
function is abstracted by an oracle `Nat → AttemptOutcome` giving the
outcome of each attempt (the work functions are out-of-scope
collaborators); attempt latencies are oracle data in milliseconds, and the
deterministic backoff sleeps `0.5 * 2^attempt` seconds are recorded
exactly as `500 * 2^attempt` milliseconds. -/

/-- Definition of agent work (`AgentTask` dataclass). -/
structure AgentTask where
  name : String
  timeoutSec : Nat
  maxRetries : Nat

/-- Outcome of one attempt of an agent's work function: a returned result
with its latency, a raised exception (`str(e)` and latency), or an
`asyncio.TimeoutError`. -/
inductive AttemptOutcome where
  | success (res : Value) (latencyMs : Nat)
  | raised (msg : String) (latencyMs : Nat)
  | timedOut

/-- The oracle describing an agent's behaviour attempt by attempt. -/
def AttemptOracle : Type := Nat → AttemptOutcome

/-- Per-agent metrics dict (`self.metrics[name]`). -/
structure Metrics where
  attempts : Nat
  totalLatencyMs : Nat
  maxLatencyMs : Nat
deriving DecidableEq

/-- The metrics entry `register_agent` initialises. -/
def Metrics.zero : Metrics := { attempts := 0, totalLatencyMs := 0, maxLatencyMs := 0 }

/-- The wrapper dict `_run_agent_with_resilience` returns:
`\x7b'agent', 'result', 'error'\x7d`. -/
structure AgentWrapper where
  agent : String
  result : Option Value
  error : Option String

/-- One observable event of a coordinator run, tagged by agent name in the
run trace: an effective status write to `agent_state` (either the direct
`.status =` assignment or an applied `update_agent_state` call — calls
that no-op on an unknown name are not recorded), or a backoff sleep. -/
inductive AgentEvent where
  | statusSet (st : AgentStatus)
  | stateUpdate (st : AgentStatus) (result : Option Value) (error : Option String)
  | sleep (ms : Nat)

/-- What `asyncio.gather(..., return_exceptions=True)` hands to the merge
for one agent: a captured exception, or the coroutine's return value
(`none` when the retry loop body never ran — `max_retries = 0` — and the
function fell through returning Python `None`). -/
inductive GatherResult where
  | exc (msg : String)
  | val (w : Option AgentWrapper)

/-- The retry loop of `_run_agent_with_resilience` (`for attempt in
range(max_retries)`), for the remaining attempts starting at index
`attempt`.  Every iteration increments the attempt counter; a successful
attempt also adds its latency to the cumulative total and raises the
maximum, and returns immediately.  On a timeout or error with attempts
remaining the loop sleeps `0.5 * 2^attempt` seconds and retries; on the
final attempt it writes the terminal state through `update_agent_state`
and returns the wrapper. -/
def resilienceLoop (name : String) (timeoutSec : Nat) (oracle : AttemptOracle)
    (attempt : Nat) : Nat → Metrics → Metrics × List AgentEvent × Option AgentWrapper
  | 0, m => (m, [], none)
  | remaining + 1, m =>
      let m1 := { m with attempts := m.attempts + 1 }
      match oracle attempt with
      | .success res lat =>
          let m2 := { m1 with totalLatencyMs := m1.totalLatencyMs + lat,
                              maxLatencyMs := Nat.max m1.maxLatencyMs lat }
          (m2, [], some { agent := name, result := some res, error := none })
      | .timedOut =>
          if remaining = 0 then
            (m1,
             [.stateUpdate .timeout none
                (some ("Timeout after " ++ toString timeoutSec ++ "s"))],
             some { agent := name, result := none, error := some "timeout" })
          else
            let out := resilienceLoop name timeoutSec oracle (attempt + 1) remaining m1
            (out.1, .sleep (500 * 2 ^ attempt) :: out.2.1, out.2.2)
      | .raised msg _lat =>
          if remaining = 0 then
            (m1, [.stateUpdate .failed none (some msg)],
             some { agent := name, result := none, error := some msg })
          else
            let out := resilienceLoop name timeoutSec oracle (attempt + 1) remaining m1
            (out.1, .sleep (500 * 2 ^ attempt) :: out.2.1, out.2.2)

/-- Application of one recorded event to the Job Record. -/
def applyEvent (jc : JobContext) (name : String) : AgentEvent → JobContext
  | .statusSet st => setAgentStatus jc name st
  | .stateUpdate st r e => updateAgentState jc name st r e
  | .sleep _ => jc

/-- Application of a tagged event list in order. -/
def applyEvents (jc : JobContext) (evs : List (String × AgentEvent)) :
    JobContext :=
  evs.foldl (fun acc p => applyEvent acc p.1 p.2) jc

/-- One agent's gather-phase execution
(`_run_agent_with_resilience(agent_name, agent_task, agent_context)`):
if the name has no `agent_state` entry, the first line
(`agent_state[name].status = ACTIVE`) raises `KeyError`, which `gather`
captures as an exception and no state or metrics are touched; otherwise
the status is set to `active` and the retry loop runs.  Returns the
updated record, this agent's final metrics, the tagged event trace, and
the gather slot. -/
def runAgentGather (jc : JobContext) (t : AgentTask) (oracle : AttemptOracle)
    (m0 : Metrics) :
    JobContext × Metrics × List (String × AgentEvent) × GatherResult :=
  if (jc.agent_state.lookup t.name).isSome then
    let jc1 := setAgentStatus jc t.name .active
    let out := resilienceLoop t.name t.timeoutSec oracle 0 t.maxRetries m0
    let evs := (t.name, AgentEvent.statusSet .active) :: out.2.1.map (fun e => (t.name, e))
    (applyEvents jc1 (out.2.1.map (fun e => (t.name, e))), out.1, evs, .val out.2.2)
  else
    (jc, m0, [], .exc ("\x27" ++ t.name ++ "\x27"))

/-- The fan-out phase of `execute_parallel`: run every registered agent
(in registration order; see the concurrency note above), threading the
record and the metrics dict, and collect the gather results in order. -/
def gatherPhase (ms : List (String × Metrics)) :
    JobContext → List (AgentTask × AttemptOracle) →
    JobContext × List (String × Metrics) × List (String × AgentEvent) ×
      List (String × GatherResult)
  | jc, [] => (jc, ms, [], [])
  | jc, (t, oracle) :: rest =>
      let r := runAgentGather jc t oracle ((ms.lookup t.name).getD Metrics.zero)
      let ms1 := listInsert ms t.name r.2.1
      let rec2 := gatherPhase ms1 r.1 rest
      (rec2.1, rec2.2.1, r.2.2.1 ++ rec2.2.2.1, (t.name, r.2.2.2) :: rec2.2.2.2)

/-- Truthiness of the wrapper's `error` field (`result.get('error')`):
`None` and the empty string are falsy. -/
def truthyErr : Option String → Bool
  | none => false
  | some s => s != ""

/-- The artifacts union of `_merge_results`: executed when
`result.get('result')` is truthy and contains the key `'artifacts'`;
`in` / indexing / `dict.update` on unsupported shapes raises, which
propagates out of `execute_parallel`.  Returns the updated record or the
raised message. -/
def mergeArtifacts (jc : JobContext) : Option Value →
    Except String JobContext
  | none => .ok jc
  | some v =>
      if pyTruthy v then
        match v with
        | .dict kvs =>
            match kvs.lookup "artifacts" with
            | none => .ok jc
            | some (.dict akvs) =>
                let merged :=
                  akvs.foldl (fun acc p => listInsert acc p.1 p.2) jc.artifacts
                .ok { jc with artifacts := merged }
            | some _ => .error "TypeError: artifacts value is not a mapping"
        | .list xs =>
            if xs.any (isStrEq "artifacts") then
              .error "TypeError: list indices must be integers"
            else .ok jc
        | .str s =>
            if (s.splitOn "artifacts").length > 1 then
              .error "TypeError: string indices must be integers"
            else .ok jc
        | _ => .error "TypeError: argument is not iterable"
      else .ok jc

/-- The merge fold of `_merge_results(agent_names, results)`, over
`zip(agent_names, results)` in registration order: a captured exception
is recorded as `failed` with `str(exception)`; a wrapper with a truthy
`error` is recorded as `failed` with that error; otherwise the agent is
marked `completed`, its result stored, and any `artifacts` sub-map is
unioned into the record.  A `None` slot (a coroutine that returned
nothing) raises `AttributeError`, aborting the merge with the partial
state kept.  Returns the record, the effective tagged events, and the
raised message if any. -/
def mergePhase :
    JobContext → List (String × GatherResult) →
    JobContext × List (String × AgentEvent) × Option String
  | jc, [] => (jc, [], none)
  | jc, (name, g) :: rest =>
      match g with
      | .exc msg =>
          let jc1 := updateAgentState jc name .failed none (some msg)
          let evs :=
            if (jc.agent_state.lookup name).isSome then
              [(name, AgentEvent.stateUpdate .failed none (some msg))]
            else []
          let out := mergePhase jc1 rest
          (out.1, evs ++ out.2.1, out.2.2)
      | .val none =>
          (jc, [], some "AttributeError: NoneType object has no attribute get")
      | .val (some w) =>
          if truthyErr w.error then
            let jc1 := updateAgentState jc name .failed none w.error
            let evs :=
              if (jc.agent_state.lookup name).isSome then
                [(name, AgentEvent.stateUpdate .failed none w.error)]
              else []
            let out := mergePhase jc1 rest
            (out.1, evs ++ out.2.1, out.2.2)
          else
            let jc1 := updateAgentState jc name .completed w.result none
            let evs :=
              if (jc.agent_state.lookup name).isSome then
                [(name, AgentEvent.stateUpdate .completed w.result none)]
              else []
            match mergeArtifacts jc1 w.result with
            | .error e => (jc1, evs, some e)
            | .ok jc2 =>
                let out := mergePhase jc2 rest
                (out.1, evs ++ out.2.1, out.2.2)

/-- Registration of a list of agents (`register_agent` per task):
`self.agents` is a dict keyed by name, so a duplicate registration
replaces the earlier one in place. -/
def registerOne (acc : List (AgentTask × AttemptOracle))
    (p : AgentTask × AttemptOracle) : List (AgentTask × AttemptOracle) :=
  if acc.any (fun q => q.1.name = p.1.name) then
    acc.map (fun q => if q.1.name = p.1.name then p else q)
  else acc ++ [p]

/-- Registration fold over the task list. -/
def registerAgents (ts : List (AgentTask × AttemptOracle)) :
    List (AgentTask × AttemptOracle) :=
  ts.foldl registerOne []

/-- The outcome of one `execute_parallel()` call: final Job Record, final
metrics dict, the tagged event trace (gather phase then merge phase), and
the exception `execute_parallel` itself raised, if any (`none` means it
returned normally). -/
structure RunResult where
  jc : JobContext
  metrics : List (String × Metrics)
  trace : List (String × AgentEvent)
  raised : Option String

/-- Method `JobCoordinator.execute_parallel()` for a coordinator that registered
`tasks` (in order) on the job record `jc0`: register every task
(initialising its metrics entry to zeros), run the gather phase, then
merge.  The returned trace is the concatenation of the gather-phase and
merge-phase event logs. -/
def executeParallel (jc0 : JobContext)
    (tasks : List (AgentTask × AttemptOracle)) : RunResult :=
  let regs := registerAgents tasks
  let ms0 := regs.map (fun p => (p.1.name, Metrics.zero))
  let gOut := gatherPhase ms0 jc0 regs
  let mOut := mergePhase gOut.1 gOut.2.2.2
  { jc := mOut.1, metrics := gOut.2.1, trace := gOut.2.2.1 ++ mOut.2.1,
    raised := mOut.2.2 }

/-- The gather-phase output of `executeParallel` (for stating lemmas
about the run's components). -/
def gatherOut (jc0 : JobContext) (tasks : List (AgentTask × AttemptOracle)) :
    JobContext × List (String × Metrics) × List (String × AgentEvent) ×
      List (String × GatherResult) :=
  gatherPhase ((registerAgents tasks).map (fun p => (p.1.name, Metrics.zero)))
    jc0 (registerAgents tasks)

/-- The merge-phase output of `executeParallel`. -/
def mergeOut (jc0 : JobContext) (tasks : List (AgentTask × AttemptOracle)) :
    JobContext × List (String × AgentEvent) × Option String :=
  mergePhase (gatherOut jc0 tasks).1 (gatherOut jc0 tasks).2.2.2

/-- The effective status writes an agent's `agent_state` entry receives
during a run, in order. -/
def statusWrites (name : String) (trace : List (String × AgentEvent)) :
    List AgentStatus :=
  trace.filterMap (fun p =>
    if p.1 = name then
      match p.2 with
      | .statusSet st => some st
      | .stateUpdate st _ _ => some st
      | .sleep _ => none
    else none)

/-- The backoff sleeps an agent performed during a run, in order, in
milliseconds. -/
def sleepsOf (name : String) (trace : List (String × AgentEvent)) :
    List Nat :=
  trace.filterMap (fun p =>
    if p.1 = name then
      match p.2 with
      | .sleep ms => some ms
      | _ => none
    else none)

/-- Check of the status-monotonicity property claimed for agent statuses:
every terminal status in the write sequence is followed only by writes of
the same value. -/
def noTerminalChange : List AgentStatus → Bool
  | [] => true
  | st :: rest =>
      (if st.isTerminal then rest.all (fun x => x = st) else true) &&
        noTerminalChange rest

/-- The status writes among an (untagged) event list. -/
def statusEvs : List AgentEvent → List AgentStatus :=
  List.filterMap (fun e => match e with
    | .statusSet st => some st
    | .stateUpdate st _ _ => some st
    | .sleep _ => none)

/-- The sleeps among an (untagged) event list. -/
def sleepEvs : List AgentEvent → List Nat :=
  List.filterMap (fun e => match e with
    | .sleep ms => some ms
    | _ => none)

/-- Whether an attempt outcome is a successful return. -/
def AttemptOutcome.isSuccess : AttemptOutcome → Bool
  | .success _ _ => true
  | _ => false

/-- The status the merge phase writes for one gather slot (`none` for the
`None` slot on which the merge raises instead). -/
def mergeWriteStatus : GatherResult → Option AgentStatus
  | .exc _ => some .failed
  | .val none => none
  | .val (some w) => some (if truthyErr w.error then .failed else .completed)

/-! ## Concrete inputs used by the claim theorems -/

/-- Registry with no connectors (none of the concrete playbooks below
reach a connector). -/
def emptyRegistry : ConnectorRegistry := fun _ => none

/-- A minimal step: given id, action and dependencies; no connector, empty
config. -/
def mkStep (i : String) (a : Option String) (deps : List String) : Step :=
  { id := i, action := a, connector := none, config := [], dependencies := deps }

/-- Cyclic playbook: step A depends on B, step B depends on A; both steps
are trivially succeeding `template` steps. -/
def cyclePB : Playbook :=
  { id := "pb-cycle", errorHandling := none,
    steps := [mkStep "A" (some "template") ["B"],
              mkStep "B" (some "template") ["A"]] }

/-- Playbook whose only step declares a dependency id (`"ghost"`) that is
not a step of the playbook. -/
def ghostPB : Playbook :=
  { id := "pb-ghost", errorHandling := none,
    steps := [mkStep "A" (some "template") ["ghost"]] }

/-- Playbook with `errorHandling = "continue"` whose first step fails (unknown
action) and whose second step succeeds. -/
def contPB : Playbook :=
  { id := "pb-cont", errorHandling := some "continue",
    steps := [mkStep "F" (some "explode") [],
              mkStep "S" (some "template") []] }

/-- Playbook with `errorHandling = "abort"` of three chained steps whose second
step fails (unknown action). -/
def abortPB : Playbook :=
  { id := "pb-abort", errorHandling := some "abort",
    steps := [mkStep "s1" (some "template") [],
              mkStep "s2" (some "explode") ["s1"],
              mkStep "s3" (some "template") ["s2"]] }

/-- A coordinator run of one registered agent, `collector`, with
`max_retries = 3`, whose every attempt times out. -/
def alwaysTimeoutRun : RunResult :=
  executeParallel (JobContext.create "job-t")
    [({ name := "collector", timeoutSec := 7, maxRetries := 3 },
      fun _ => .timedOut)]

/-- A coordinator run registering an agent named `ghost`, a name with no
`agent_state` entry in the default Job Record; its work would succeed
immediately. -/
def ghostRun : RunResult :=
  executeParallel (JobContext.create "job-g")
    [({ name := "ghost", timeoutSec := 5, maxRetries := 1 },
      fun _ => .success (.dict []) 10)]

/-- A coordinator run of one registered agent whose single attempt raises
`"boom"` after 250 ms of work. -/
def raiseRun : RunResult :=
  executeParallel (JobContext.create "job-r")
    [({ name := "collector", timeoutSec := 5, maxRetries := 1 },
      fun _ => .raised "boom" 250)]

/-- Formalisation of claim C6's asserted outcome at a concrete run: final
status `timeout`, attempt count 3, and all three backoff sleeps 0.5 s,
1 s and 2 s. -/
def c6ClaimCheck (r : RunResult) (name : String) : Bool :=
  (match r.jc.agent_state.lookup name with
    | some a => decide (a.status = AgentStatus.timeout)
    | none => false) &&
  (match r.metrics.lookup name with
    | some m => decide (m.attempts = 3)
    | none => false) &&
  decide (sleepsOf name r.trace = [500, 1000, 2000])

/-- Formalisation of claim C7's asserted metrics update at a concrete
single-attempt run whose attempt had latency `lat`: the attempt count is
1 and the attempt's latency was added to the cumulative latency and
raised the maximum. -/
def c7ClaimCheck (r : RunResult) (name : String) (lat : Nat) : Bool :=
  match r.metrics.lookup name with
  | some m =>
      decide (m.attempts = 1) && decide (m.totalLatencyMs = lat) &&
        decide (m.maxLatencyMs = lat)
  | none => false

/-- Concrete interpolation input: a proper reference, a reference not
closed by a brace, a non-string value, and a plain string. -/
def c10Data : List (String × Value) :=
  [("a", .str "$\x7bx\x7d"), ("b", .str "$\x7bmissing"), ("c", .num 5),
   ("d", .str "plain")]

/-- Concrete execution context holding only the variable `x`. -/
def c10Ctx : ExecutionContext :=
  { execution_id := "e", playbook_id := "p", varMap := [("x", .str "V")] }

/-! # Theorems -/

/-! ## Association-list helper lemmas -/

theorem lookup_cons_beq {β : Type} (a k : String) (b : β)
    (t : List (String × β)) :
    List.lookup k ((a, b) :: t) = if k = a then some b else t.lookup k := by
  by_cases h : k = a
  · simp [List.lookup, h]
  · have hb : (k == a) = false := by simp [h]
    simp [List.lookup, hb, h]

theorem lookup_isSome_iff {β : Type} (l : List (String × β)) (k : String) :
    (l.lookup k).isSome = true ↔ k ∈ l.map Prod.fst := by
  induction l with
  | nil => simp [List.lookup]
  | cons p t ih =>
      obtain ⟨a, b⟩ := p
      rw [lookup_cons_beq]
      by_cases h : k = a <;> simp [h, ih]

theorem lookup_eq_none_iff {β : Type} (l : List (String × β)) (k : String) :
    l.lookup k = none ↔ k ∉ l.map Prod.fst := by
  rw [← lookup_isSome_iff]
  cases l.lookup k <;> simp

theorem mapEntry_cons_eq {β : Type} (a k : String) (b : β)
    (t : List (String × β)) (f : β → β) (h : a = k) :
    mapEntry ((a, b) :: t) k f = (a, f b) :: mapEntry t k f := by
  simp [mapEntry, h]

theorem mapEntry_cons_ne {β : Type} (a k : String) (b : β)
    (t : List (String × β)) (f : β → β) (h : ¬ a = k) :
    mapEntry ((a, b) :: t) k f = (a, b) :: mapEntry t k f := by
  simp [mapEntry, h]

theorem mapEntry_keys {β : Type} (l : List (String × β)) (k : String)
    (f : β → β) : (mapEntry l k f).map Prod.fst = l.map Prod.fst := by
  induction l with
  | nil => rfl
  | cons p t ih =>
      obtain ⟨a, b⟩ := p
      by_cases h : a = k
      · rw [mapEntry_cons_eq a k b t f h]; simp [ih]
      · rw [mapEntry_cons_ne a k b t f h]; simp [ih]

theorem mapEntry_lookup_ne {β : Type} (l : List (String × β)) (k : String)
    (f : β → β) (k' : String) (h : k' ≠ k) :
    (mapEntry l k f).lookup k' = l.lookup k' := by
  induction l with
  | nil => rfl
  | cons p t ih =>
      obtain ⟨a, b⟩ := p
      by_cases ha : a = k
      · rw [mapEntry_cons_eq a k b t f ha, lookup_cons_beq, lookup_cons_beq,
          if_neg (ha ▸ h), if_neg (ha ▸ h), ih]
      · rw [mapEntry_cons_ne a k b t f ha, lookup_cons_beq, lookup_cons_beq, ih]

theorem mapEntry_lookup_self {β : Type} (l : List (String × β)) (k : String)
    (f : β → β) : (mapEntry l k f).lookup k = (l.lookup k).map f := by
  induction l with
  | nil => rfl
  | cons p t ih =>
      obtain ⟨a, b⟩ := p
      by_cases ha : a = k
      · rw [mapEntry_cons_eq a k b t f ha, lookup_cons_beq, lookup_cons_beq,
          if_pos ha.symm, if_pos ha.symm]
        rfl
      · rw [mapEntry_cons_ne a k b t f ha, lookup_cons_beq, lookup_cons_beq,
          if_neg (fun hk => ha hk.symm), if_neg (fun hk => ha hk.symm), ih]

theorem lookup_append_left {β : Type} (l l' : List (String × β)) (k : String)
    (hsome : (l.lookup k).isSome = true) :
    (l ++ l').lookup k = l.lookup k := by
  induction l with
  | nil => simp [List.lookup] at hsome
  | cons p t ih =>
      obtain ⟨a, b⟩ := p
      rw [List.cons_append, lookup_cons_beq, lookup_cons_beq]
      rw [lookup_cons_beq] at hsome
      by_cases h : k = a
      · rw [if_pos h, if_pos h]
      · rw [if_neg h, if_neg h]
        rw [if_neg h] at hsome
        exact ih hsome

theorem lookup_append_right {β : Type} (l l' : List (String × β)) (k : String)
    (hnone : l.lookup k = none) :
    (l ++ l').lookup k = l'.lookup k := by
  induction l with
  | nil => simp
  | cons p t ih =>
      obtain ⟨a, b⟩ := p
      rw [List.cons_append, lookup_cons_beq]
      rw [lookup_cons_beq] at hnone
      by_cases h : k = a
      · rw [if_pos h] at hnone; exact absurd hnone (by simp)
      · rw [if_neg h]
        rw [if_neg h] at hnone
        exact ih hnone

theorem listInsert_lookup_self {β : Type} (l : List (String × β))
    (k : String) (v : β) : (listInsert l k v).lookup k = some v := by
  unfold listInsert
  split
  · rename_i hs
    rw [mapEntry_lookup_self]
    cases hl : l.lookup k with
    | none => rw [hl] at hs; simp at hs
    | some w => rfl
  · rename_i hs
    have hnone : l.lookup k = none := by
      cases hl : l.lookup k with
      | none => rfl
      | some w => rw [hl] at hs; simp at hs
    rw [lookup_append_right l [(k, v)] k hnone, lookup_cons_beq, if_pos rfl]

theorem listInsert_lookup_ne {β : Type} (l : List (String × β)) (k : String)
    (v : β) (k' : String) (h : k' ≠ k) :
    (listInsert l k v).lookup k' = l.lookup k' := by
  unfold listInsert
  split
  · exact mapEntry_lookup_ne l k (fun _ => v) k' h
  · cases hl : l.lookup k' with
    | some w => rw [lookup_append_left l [(k, v)] k' (by rw [hl]; rfl), hl]
    | none =>
        rw [lookup_append_right l [(k, v)] k' hl, lookup_cons_beq, if_neg h]
        simp [List.lookup]

theorem listInsert_keys_of_mem {β : Type} (l : List (String × β)) (k : String)
    (v : β) (h : (l.lookup k).isSome = true) :
    (listInsert l k v).map Prod.fst = l.map Prod.fst := by
  unfold listInsert
  rw [if_pos h]
  exact mapEntry_keys l k (fun _ => v)

/-! ## Job-record state lemmas -/

theorem applyStateUpdate_status (a : AgentState) (st : AgentStatus)
    (r : Option Value) (e : Option String) :
    (applyStateUpdate a st r e).status = st := by
  unfold applyStateUpdate
  cases r with
  | none =>
      cases e with
      | none => rfl
      | some msg => by_cases h : msg != "" <;> simp [h]
  | some rv =>
      cases e with
      | none => by_cases h : pyTruthy rv <;> simp [h]
      | some msg =>
          by_cases h : pyTruthy rv <;> by_cases h2 : msg != "" <;> simp [h, h2]

theorem updateAgentState_keys (jc : JobContext) (n : String)
    (st : AgentStatus) (r : Option Value) (e : Option String) :
    (updateAgentState jc n st r e).agent_state.map Prod.fst =
      jc.agent_state.map Prod.fst := by
  unfold updateAgentState
  split
  · dsimp only
    exact mapEntry_keys jc.agent_state n _
  · rfl

theorem setAgentStatus_keys (jc : JobContext) (n : String)
    (st : AgentStatus) :
    (setAgentStatus jc n st).agent_state.map Prod.fst =
      jc.agent_state.map Prod.fst := by
  unfold setAgentStatus
  dsimp only
  exact mapEntry_keys jc.agent_state n _

theorem updateAgentState_lookup_ne (jc : JobContext) (n : String)
    (st : AgentStatus) (r : Option Value) (e : Option String) (n' : String)
    (h : n' ≠ n) :
    (updateAgentState jc n st r e).agent_state.lookup n' =
      jc.agent_state.lookup n' := by
  unfold updateAgentState
  split
  · dsimp only
    exact mapEntry_lookup_ne jc.agent_state n _ n' h
  · rfl

theorem setAgentStatus_lookup_ne (jc : JobContext) (n : String)
    (st : AgentStatus) (n' : String) (h : n' ≠ n) :
    (setAgentStatus jc n st).agent_state.lookup n' =
      jc.agent_state.lookup n' := by
  unfold setAgentStatus
  dsimp only
  exact mapEntry_lookup_ne jc.agent_state n _ n' h

theorem updateAgentState_lookup_self (jc : JobContext) (n : String)
    (st : AgentStatus) (r : Option Value) (e : Option String)
    (a : AgentState) (h : jc.agent_state.lookup n = some a) :
    (updateAgentState jc n st r e).agent_state.lookup n =
      some (applyStateUpdate a st r e) := by
  unfold updateAgentState
  rw [if_pos (by rw [h]; rfl)]
  dsimp only
  rw [mapEntry_lookup_self, h]
  rfl

theorem setAgentStatus_lookup_self (jc : JobContext) (n : String)
    (st : AgentStatus) (a : AgentState) (h : jc.agent_state.lookup n = some a) :
    (setAgentStatus jc n st).agent_state.lookup n =
      some { a with status := st } := by
  unfold setAgentStatus
  dsimp only
  rw [mapEntry_lookup_self, h]
  rfl

theorem applyEvent_keys (jc : JobContext) (n : String) (ev : AgentEvent) :
    (applyEvent jc n ev).agent_state.map Prod.fst =
      jc.agent_state.map Prod.fst := by
  cases ev with
  | statusSet st => exact setAgentStatus_keys jc n st
  | stateUpdate st r e => exact updateAgentState_keys jc n st r e
  | sleep ms => rfl

theorem applyEvents_keys (evs : List (String × AgentEvent)) :
    ∀ jc : JobContext,
      (applyEvents jc evs).agent_state.map Prod.fst =
        jc.agent_state.map Prod.fst := by
  induction evs with
  | nil => intro jc; rfl
  | cons p t ih =>
      intro jc
      show (applyEvents (applyEvent jc p.1 p.2) t).agent_state.map Prod.fst = _
      rw [ih (applyEvent jc p.1 p.2), applyEvent_keys]

theorem applyEvent_lookup_ne (jc : JobContext) (n : String) (ev : AgentEvent)
    (n' : String) (h : n' ≠ n) :
    (applyEvent jc n ev).agent_state.lookup n' =
      jc.agent_state.lookup n' := by
  cases ev with
  | statusSet st => exact setAgentStatus_lookup_ne jc n st n' h
  | stateUpdate st r e => exact updateAgentState_lookup_ne jc n st r e n' h
  | sleep ms => rfl

/-! ## Interpolation and role-view lemmas -/

theorem foldl_listInsert_fresh (g : String × Value → Value) :
    ∀ (data acc : List (String × Value)),
      (data.map Prod.fst).Nodup →
      (∀ k ∈ data.map Prod.fst, k ∉ acc.map Prod.fst) →
      data.foldl (fun a kv => listInsert a kv.1 (g kv)) acc =
        acc ++ data.map (fun kv => (kv.1, g kv)) := by
  intro data
  induction data with
  | nil => intro acc _ _; simp
  | cons kv rest ih =>
      intro acc hnd hfresh
      obtain ⟨k, v⟩ := kv
      rw [List.map_cons] at hnd
      have hknotin : k ∉ rest.map Prod.fst := (List.nodup_cons.mp hnd).1
      have hrest : (rest.map Prod.fst).Nodup := (List.nodup_cons.mp hnd).2
      have hk : k ∉ acc.map Prod.fst := hfresh k (by simp)
      have hnone : acc.lookup k = none := (lookup_eq_none_iff acc k).mpr hk
      show rest.foldl _ (listInsert acc k (g (k, v))) = _
      have hins : listInsert acc k (g (k, v)) = acc ++ [(k, g (k, v))] := by
        unfold listInsert
        rw [hnone]
        simp
      rw [hins, ih (acc ++ [(k, g (k, v))])]
      · simp
      · exact hrest
      · intro k' hk'
        have hne : k' ≠ k := by
          intro hEq
          exact hknotin (hEq ▸ hk')
        have hnotacc : k' ∉ acc.map Prod.fst :=
          hfresh k' (by simp [hk'])
        simp [hnotacc, hne]

/-- C10.  In query-step parameter interpolation a string value is treated
as a variable reference exactly when it starts with `"${"`; the variable
name is `value[2:-1]` — drop the first two characters and the last one,
whether or not the value ends with a brace; an unknown variable resolves
to the null value; every other value passes through unchanged.  (The
Python dict `data` has distinct keys, stated as the `Nodup` hypothesis.) -/
theorem c10_interpolation (data : List (String × Value))
    (ctx : ExecutionContext) (hnd : (data.map Prod.fst).Nodup) :
    interpolateVariables data ctx =
      data.map (fun kv =>
        (kv.1,
          match kv.2 with
          | .str s =>
              if s.startsWith "$\x7b" then
                (ctx.getVariable ((s.drop 2).dropRight 1)).getD .null
              else .str s
          | v => v)) := by
  unfold interpolateVariables
  rw [foldl_listInsert_fresh (fun kv => interpValue ctx kv.2) data [] hnd
    (by simp)]
  simp only [List.nil_append]
  apply List.map_congr_left
  intro kv _
  cases hv : kv.2 <;> simp [interpValue]

/-- Witness for C10 at `c10Data` / `c10Ctx`: the keys are distinct and
interpolation maps the four sample values as the claim describes. -/
theorem c10_witness :
    (c10Data.map Prod.fst).Nodup ∧
    interpolateVariables c10Data c10Ctx =
      c10Data.map (fun kv =>
        (kv.1,
          match kv.2 with
          | .str s =>
              if s.startsWith "$\x7b" then
                (c10Ctx.getVariable ((s.drop 2).dropRight 1)).getD .null
              else .str s
          | v => v)) :=
  ⟨by decide, c10_interpolation c10Data c10Ctx (by decide)⟩

/-- C9.  `get_agent_context` returns a view with exactly the fixed key
set of the role mapping — collector sees task and constraints, drafter
sees task, artifacts, decisions and constraints, validator sees task,
artifacts and constraints — regardless of the Job Record's contents, and
every unknown role receives an empty view. -/
theorem c9_role_views (jc : JobContext) (role : String) :
    (jc.getAgentContext "collector").map Prod.fst =
      ["task", "constraints"] ∧
    (jc.getAgentContext "drafter").map Prod.fst =
      ["task", "artifacts", "decisions", "constraints"] ∧
    (jc.getAgentContext "validator").map Prod.fst =
      ["task", "artifacts", "constraints"] ∧
    (role ∉ (["collector", "drafter", "validator"] : List String) →
      jc.getAgentContext role = []) := by
  refine ⟨rfl, rfl, rfl, ?_⟩
  intro h
  simp only [List.mem_cons, List.not_mem_nil, or_false, not_or] at h
  obtain ⟨h1, h2, h3⟩ := h
  simp [JobContext.getAgentContext, roleFilters, h1, h2, h3]

/-- Witness for C9: the unknown role `"ghost"` receives the empty view on
a freshly created Job Record. -/
theorem c9_witness :
    (JobContext.create "j").getAgentContext "ghost" = [] :=
  (c9_role_views (JobContext.create "j") "ghost").2.2.2 (by decide)

/-! ## Execution-loop lemmas -/

theorem execLoop_cons (reg : ConnectorRegistry) (ctx : ExecutionContext)
    (eh : Option String) (s : Step) (rest : List Step)
    (acc : List StepReport) :
    execLoop reg ctx eh (s :: rest) acc =
      if (execStep reg s ctx).status = .failed ∧ eh = some "abort" then
        (acc ++ [stepToReport (execStep reg s ctx)],
         some ("Step failed: " ++ optStr (execStep reg s ctx).error))
      else
        execLoop reg ctx eh rest
          (acc ++ [stepToReport (execStep reg s ctx)]) := rfl

theorem stepToReport_execStep_id (reg : ConnectorRegistry) (s : Step)
    (ctx : ExecutionContext) :
    (stepToReport (execStep reg s ctx)).step_id = s.id := by
  unfold execStep stepToReport
  dsimp only
  split <;> rfl

theorem execLoop_no_abort (reg : ConnectorRegistry) (ctx : ExecutionContext)
    (eh : Option String) (hne : eh ≠ some "abort") :
    ∀ (steps : List Step) (acc : List StepReport),
      execLoop reg ctx eh steps acc =
        (acc ++ steps.map (fun s => stepToReport (execStep reg s ctx)),
         none) := by
  intro steps
  induction steps with
  | nil => intro acc; simp [execLoop]
  | cons s rest ih =>
      intro acc
      rw [execLoop_cons, if_neg (fun hc => hne hc.2), ih]
      simp

/-- C2, amended.  With `errorHandling = "continue"` every step in the
sorted order still executes after a failure — the report carries one
entry per sorted step, in order — but the overall status is always
`"success"`, regardless of step failures: the status is only `failed`
when an exception escapes the loop (a dependency-graph error, or a step
failure under the `abort` policy). -/
theorem c2_continue_executes_all (reg : ConnectorRegistry) (pb : Playbook)
    (eid : String) (sorted : List Step)
    (hEH : pb.errorHandling = some "continue")
    (hsort : topologicalSort (buildGraph pb.steps) = .ok sorted) :
    (executePlaybook reg pb eid).steps.map StepReport.step_id =
      sorted.map Step.id ∧
    (executePlaybook reg pb eid).status = "success" := by
  unfold executePlaybook
  rw [hsort, hEH]
  dsimp only
  rw [execLoop_no_abort reg _ (some "continue") (by simp) sorted []]
  constructor
  · dsimp only
    rw [List.nil_append, List.map_map]
    apply List.map_congr_left
    intro s _
    exact stepToReport_execStep_id reg s _
  · rfl

/-- Witness for C2 amended at the concrete `continue` playbook `contPB`
(whose first step fails): both steps execute and the status is
`"success"`. -/
theorem c2_amended_witness :
    (executePlaybook emptyRegistry contPB "e3").steps.map
        StepReport.step_id = contPB.steps.map Step.id ∧
    (executePlaybook emptyRegistry contPB "e3").status = "success" :=
  c2_continue_executes_all emptyRegistry contPB "e3" contPB.steps rfl rfl

/-- C8.  With `errorHandling = "abort"` and three sorted steps of which
the first succeeds and the second fails, execution halts immediately
after the failure: the report holds exactly the two executed steps'
results, in order, and the overall status is `failed`; the third step
never runs. -/
theorem c8_abort_halts (reg : ConnectorRegistry) (pb : Playbook)
    (eid : String) (s1 s2 s3 : Step)
    (hEH : pb.errorHandling = some "abort")
    (hsort : topologicalSort (buildGraph pb.steps) = .ok [s1, s2, s3])
    (h1 : (execStep reg s1 (freshContext pb eid)).status = .success)
    (h2 : (execStep reg s2 (freshContext pb eid)).status = .failed) :
    (executePlaybook reg pb eid).steps.length = 2 ∧
    (executePlaybook reg pb eid).steps.map StepReport.step_id =
      [s1.id, s2.id] ∧
    (executePlaybook reg pb eid).status = "failed" := by
  unfold executePlaybook
  rw [hsort, hEH]
  dsimp only
  rw [execLoop_cons, if_neg (fun hc => by rw [h1] at hc; cases hc.1)]
  rw [execLoop_cons, if_pos ⟨h2, rfl⟩]
  dsimp only
  refine ⟨rfl, ?_, rfl⟩
  simp [stepToReport_execStep_id]

/-- Witness for C8 at the concrete `abort` playbook `abortPB`: two step
results, ids s1 and s2, overall status failed. -/
theorem c8_witness :
    (executePlaybook emptyRegistry abortPB "e4").steps.length = 2 ∧
    (executePlaybook emptyRegistry abortPB "e4").steps.map
        StepReport.step_id = ["s1", "s2"] ∧
    (executePlaybook emptyRegistry abortPB "e4").status = "failed" :=
  c8_abort_halts emptyRegistry abortPB "e4"
    (mkStep "s1" (some "template") [])
    (mkStep "s2" (some "explode") ["s1"])
    (mkStep "s3" (some "template") ["s2"]) rfl rfl rfl rfl

/-! ## Dependency-sort lemmas

The Python `visit` terminates because every recursive call happens after a
new id has been added to `visited`; the lemmas below make the supplied
fuel bound `steps.length + 1` precise and derive the behaviour of
`topological_sort` on playbooks with dangling dependency ids. -/

theorem filter_length_mono (p q : String → Bool)
    (h : ∀ x, p x = true → q x = true) :
    ∀ l : List String, (l.filter p).length ≤ (l.filter q).length := by
  intro l
  induction l with
  | nil => simp
  | cons a t ih =>
      by_cases hp : p a = true
      · rw [List.filter_cons_of_pos hp, List.filter_cons_of_pos (h a hp)]
        simpa using ih
      · rw [List.filter_cons_of_neg (by simpa using hp)]
        by_cases hq : q a = true
        · rw [List.filter_cons_of_pos hq]
          exact le_trans ih (by simp)
        · rw [List.filter_cons_of_neg (by simpa using hq)]
          exact ih

theorem muCount_le (g : DependencyGraph) (v : List String) :
    muCount g v ≤ g.steps.length := by
  unfold muCount
  calc ((g.steps.map Prod.fst).filter _).length
      ≤ (g.steps.map Prod.fst).length := List.length_filter_le _ _
    _ = g.steps.length := List.length_map _ _

theorem muCount_mono (g : DependencyGraph) (v v' : List String)
    (h : ∀ x ∈ v, x ∈ v') : muCount g v' ≤ muCount g v := by
  unfold muCount
  apply filter_length_mono
  intro x hx
  simp only [decide_eq_true_eq] at hx ⊢
  intro hmem
  exact hx (h x hmem)

theorem muCount_cons_lt (g : DependencyGraph) (sid : String)
    (v : List String) (hin : sid ∈ g.steps.map Prod.fst) (hout : sid ∉ v) :
    muCount g (sid :: v) < muCount g v := by
  unfold muCount
  revert hin
  induction (g.steps.map Prod.fst) with
  | nil => intro hin; cases hin
  | cons a t ih =>
      intro hin
      by_cases ha : sid = a
      · subst ha
        rw [List.filter_cons_of_neg (by simp), List.filter_cons_of_pos
          (by simpa using hout)]
        have := filter_length_mono
          (fun i => decide (i ∉ sid :: v)) (fun i => decide (i ∉ v))
          (fun x hx => by
            simp only [decide_eq_true_eq, List.mem_cons, not_or] at hx ⊢
            exact hx.2) t
        simp only [List.length_cons]
        omega
      · have hin' : sid ∈ t := by
          cases hin with
          | head => exact absurd rfl ha
          | tail _ h => exact h
        have hane : a ≠ sid := fun hEq => ha hEq.symm
        by_cases hav : a ∈ v
        · rw [List.filter_cons_of_neg (by simp [hav]),
            List.filter_cons_of_neg (by simp [hav])]
          exact ih hin'
        · rw [List.filter_cons_of_pos
            (by simp only [decide_eq_true_eq, List.mem_cons, not_or]
                exact ⟨hane, hav⟩),
            List.filter_cons_of_pos (by simpa using hav)]
          exact Nat.succ_lt_succ (ih hin')

theorem visit_inv (g : DependencyGraph) : ∀ fuel : Nat,
    (∀ sid visited res v' r',
      visitStep g fuel sid visited res = .ok (v', r') →
      (∀ x ∈ visited, x ∈ v') ∧ sid ∈ v' ∧
      (∀ x ∈ v', x ∈ visited ∨
        (x ∈ g.steps.map Prod.fst ∧ ∀ d ∈ adjOf g x, d ∈ v'))) ∧
    (∀ ds visited res v' r',
      visitDepsWith (visitStep g fuel) ds visited res = .ok (v', r') →
      (∀ x ∈ visited, x ∈ v') ∧ (∀ d ∈ ds, d ∈ v') ∧
      (∀ x ∈ v', x ∈ visited ∨
        (x ∈ g.steps.map Prod.fst ∧ ∀ d ∈ adjOf g x, d ∈ v'))) := by
  intro fuel
  induction fuel with
  | zero =>
      constructor
      · intro sid visited res v' r' h
        exact absurd h (by simp [visitStep])
      · intro ds
        induction ds with
        | nil =>
            intro visited res v' r' h
            obtain ⟨hv, hr⟩ : visited = v' ∧ res = r' := by
              simpa [visitDepsWith] using h
            subst hv
            exact ⟨fun x hx => hx, by simp, fun x hx => Or.inl hx⟩
        | cons d rest ihd =>
            intro visited res v' r' h
            exact absurd h (by simp [visitDepsWith, visitStep])
  | succ f ih =>
      have hA : ∀ sid visited res v' r',
          visitStep g (f + 1) sid visited res = .ok (v', r') →
          (∀ x ∈ visited, x ∈ v') ∧ sid ∈ v' ∧
          (∀ x ∈ v', x ∈ visited ∨
            (x ∈ g.steps.map Prod.fst ∧ ∀ d ∈ adjOf g x, d ∈ v')) := by
        intro sid visited res v' r' h
        rw [visitStep] at h
        by_cases hv : sid ∈ visited
        · rw [if_pos hv] at h
          obtain ⟨h1, h2⟩ : visited = v' ∧ res = r' := by
            simpa using h
          subst h1
          exact ⟨fun x hx => hx, hv, fun x hx => Or.inl hx⟩
        · rw [if_neg hv] at h
          cases hdeps : visitDepsWith (visitStep g f) (adjOf g sid)
              (sid :: visited) res with
          | error e => rw [hdeps] at h; cases h
          | ok p =>
              obtain ⟨v1, r1⟩ := p
              rw [hdeps] at h
              obtain ⟨hsub, hds, hM3⟩ := ih.2 (adjOf g sid) (sid :: visited)
                res v1 r1 hdeps
              cases hlk : g.steps.lookup sid with
              | none => rw [hlk] at h; cases h
              | some st =>
                  rw [hlk] at h
                  obtain ⟨h1, _h2⟩ : v1 = v' ∧ r1 ++ [st] = r' := by
                    simpa using h
                  subst h1
                  have hsid_ids : sid ∈ g.steps.map Prod.fst := by
                    rw [← lookup_isSome_iff]
                    rw [hlk]
                    rfl
                  refine ⟨fun x hx => hsub x (List.mem_cons_of_mem _ hx),
                    hsub sid (List.mem_cons_self _ _), ?_⟩
                  intro x hx
                  cases hM3 x hx with
                  | inl hmem =>
                      cases hmem with
                      | head => exact Or.inr ⟨hsid_ids, hds⟩
                      | tail _ hm => exact Or.inl hm
                  | inr hr => exact Or.inr hr
      refine ⟨hA, ?_⟩
      intro ds
      induction ds with
      | nil =>
          intro visited res v' r' h
          obtain ⟨h1, _h2⟩ : visited = v' ∧ res = r' := by
            simpa [visitDepsWith] using h
          subst h1
          exact ⟨fun x hx => hx, by simp, fun x hx => Or.inl hx⟩
      | cons d rest ihd =>
          intro visited res v' r' h
          rw [visitDepsWith] at h
          cases hd : visitStep g (f + 1) d visited res with
          | error e => rw [hd] at h; cases h
          | ok p =>
              obtain ⟨v1, r1⟩ := p
              rw [hd] at h
              obtain ⟨hsub1, hdin, hM31⟩ := hA d visited res v1 r1 hd
              obtain ⟨hsub2, hrest, hM32⟩ := ihd v1 r1 v' r' h
              refine ⟨fun x hx => hsub2 x (hsub1 x hx), ?_, ?_⟩
              · intro x hx
                cases hx with
                | head => exact hsub2 d hdin
                | tail _ hm => exact hrest x hm
              · intro x hx
                cases hM32 x hx with
                | inl hv1 =>
                    cases hM31 x hv1 with
                    | inl hvis => exact Or.inl hvis
                    | inr hrr =>
                        exact Or.inr ⟨hrr.1, fun dd hdd => hsub2 dd (hrr.2 dd hdd)⟩
                | inr hrr => exact Or.inr hrr

theorem visit_no_fuel_error (g : DependencyGraph)
    (hkeys : g.adjacency.map Prod.fst = g.steps.map Prod.fst) :
    ∀ fuel : Nat,
    (∀ sid visited res, muCount g visited < fuel →
      visitStep g fuel sid visited res ≠ .error .fuelExhausted) ∧
    (∀ ds visited res, muCount g visited < fuel →
      visitDepsWith (visitStep g fuel) ds visited res ≠
        .error .fuelExhausted) := by
  intro fuel
  induction fuel with
  | zero =>
      constructor
      · intro sid visited res hmu
        exact absurd hmu (by omega)
      · intro ds visited res hmu
        exact absurd hmu (by omega)
  | succ f ih =>
      have hA : ∀ sid visited res, muCount g visited < f + 1 →
          visitStep g (f + 1) sid visited res ≠ .error .fuelExhausted := by
        intro sid visited res hmu h
        rw [visitStep] at h
        by_cases hv : sid ∈ visited
        · rw [if_pos hv] at h; cases h
        · rw [if_neg hv] at h
          by_cases hid : sid ∈ g.steps.map Prod.fst
          · have hmu' : muCount g (sid :: visited) < f :=
              lt_of_lt_of_le (muCount_cons_lt g sid visited hid hv)
                (Nat.lt_succ_iff.mp hmu)
            cases hdeps : visitDepsWith (visitStep g f) (adjOf g sid)
                (sid :: visited) res with
            | error e =>
                rw [hdeps] at h
                cases h
                exact ih.2 (adjOf g sid) (sid :: visited) res hmu' hdeps
            | ok p =>
                rw [hdeps] at h
                cases hlk : g.steps.lookup sid with
                | none => rw [hlk] at h; cases h
                | some st => rw [hlk] at h; cases h
          · have hadj : adjOf g sid = [] := by
              unfold adjOf
              rw [(lookup_eq_none_iff g.adjacency sid).mpr (by
                rw [hkeys]; exact hid)]
              rfl
            rw [hadj] at h
            rw [show visitDepsWith (visitStep g f) [] (sid :: visited) res =
              .ok (sid :: visited, res) from rfl] at h
            cases hlk : g.steps.lookup sid with
            | none => rw [hlk] at h; cases h
            | some st =>
                exact absurd ((lookup_isSome_iff g.steps sid).mp
                  (by rw [hlk]; rfl)) hid
      refine ⟨hA, ?_⟩
      intro ds
      induction ds with
      | nil =>
          intro visited res hmu h
          cases h
      | cons d rest ihd =>
          intro visited res hmu h
          rw [visitDepsWith] at h
          cases hd : visitStep g (f + 1) d visited res with
          | error e =>
              rw [hd] at h
              cases h
              exact hA d visited res hmu hd
          | ok p =>
              obtain ⟨v1, r1⟩ := p
              rw [hd] at h
              have hsub := ((visit_inv g (f + 1)).1 d visited res v1 r1 hd).1
              have hmu1 : muCount g v1 < f + 1 :=
                lt_of_le_of_lt (muCount_mono g visited v1 hsub) hmu
              exact ihd v1 r1 hmu1 h

theorem sortSteps_inv (g : DependencyGraph) :
    ∀ (ks visited res : _) (v' : List String) (r' : List Step),
      sortSteps g ks visited res = .ok (v', r') →
      (∀ x ∈ visited, x ∈ v') ∧ (∀ k ∈ ks, k ∈ v') ∧
      (∀ x ∈ v', x ∈ visited ∨
        (x ∈ g.steps.map Prod.fst ∧ ∀ d ∈ adjOf g x, d ∈ v')) := by
  intro ks
  induction ks with
  | nil =>
      intro visited res v' r' h
      obtain ⟨h1, _h2⟩ : visited = v' ∧ res = r' := by
        simpa [sortSteps] using h
      subst h1
      exact ⟨fun x hx => hx, by simp, fun x hx => Or.inl hx⟩
  | cons k rest ih =>
      intro visited res v' r' h
      rw [sortSteps] at h
      cases hk : visitStep g (g.steps.length + 1) k visited res with
      | error e => rw [hk] at h; cases h
      | ok p =>
          obtain ⟨v1, r1⟩ := p
          rw [hk] at h
          obtain ⟨hsub1, hkin, hM31⟩ :=
            (visit_inv g (g.steps.length + 1)).1 k visited res v1 r1 hk
          obtain ⟨hsub2, hrest, hM32⟩ := ih v1 r1 v' r' h
          refine ⟨fun x hx => hsub2 x (hsub1 x hx), ?_, ?_⟩
          · intro x hx
            cases hx with
            | head => exact hsub2 k hkin
            | tail _ hm => exact hrest x hm
          · intro x hx
            cases hM32 x hx with
            | inl hv1 =>
                cases hM31 x hv1 with
                | inl hvis => exact Or.inl hvis
                | inr hrr =>
                    exact Or.inr ⟨hrr.1, fun dd hdd => hsub2 dd (hrr.2 dd hdd)⟩
            | inr hrr => exact Or.inr hrr

theorem sortSteps_no_fuel_error (g : DependencyGraph)
    (hkeys : g.adjacency.map Prod.fst = g.steps.map Prod.fst) :
    ∀ ks visited res,
      sortSteps g ks visited res ≠ .error .fuelExhausted := by
  intro ks
  induction ks with
  | nil => intro visited res h; cases h
  | cons k rest ih =>
      intro visited res h
      rw [sortSteps] at h
      cases hk : visitStep g (g.steps.length + 1) k visited res with
      | error e =>
          rw [hk] at h
          cases h
          exact (visit_no_fuel_error g hkeys (g.steps.length + 1)).1 k
            visited res (Nat.lt_succ_of_le (muCount_le g visited)) hk
      | ok p =>
          rw [hk] at h
          exact ih p.1 p.2 h

theorem foldl_listInsert_fresh_gen {α : Type} {β : Type} (key : α → String)
    (f : α → β) :
    ∀ (l : List α) (acc : List (String × β)),
      (l.map key).Nodup →
      (∀ a ∈ l, key a ∉ acc.map Prod.fst) →
      l.foldl (fun acc a => listInsert acc (key a) (f a)) acc =
        acc ++ l.map (fun a => (key a, f a)) := by
  intro l
  induction l with
  | nil => intro acc _ _; simp
  | cons a rest ih =>
      intro acc hnd hfresh
      rw [List.map_cons] at hnd
      have hknotin : key a ∉ rest.map key := (List.nodup_cons.mp hnd).1
      have hrest : (rest.map key).Nodup := (List.nodup_cons.mp hnd).2
      have hk : key a ∉ acc.map Prod.fst := hfresh a (by simp)
      have hnone : acc.lookup (key a) = none :=
        (lookup_eq_none_iff acc (key a)).mpr hk
      show rest.foldl _ (listInsert acc (key a) (f a)) = _
      have hins : listInsert acc (key a) (f a) = acc ++ [(key a, f a)] := by
        unfold listInsert
        rw [hnone]
        simp
      rw [hins, ih (acc ++ [(key a, f a)]) hrest]
      · simp
      · intro a' ha'
        have hne : key a' ≠ key a := by
          intro hEq
          exact hknotin (hEq ▸ List.mem_map_of_mem key ha')
        have hnotacc : key a' ∉ acc.map Prod.fst :=
          hfresh a' (by simp [ha'])
        simp [hnotacc, hne]

theorem buildGraph_steps_of_nodup (steps : List Step)
    (hnd : (steps.map Step.id).Nodup) :
    (buildGraph steps).steps = steps.map (fun st => (st.id, st)) := by
  unfold buildGraph
  simpa using
    foldl_listInsert_fresh_gen Step.id (fun st => st) steps [] hnd (by simp)

theorem buildGraph_adjacency_of_nodup (steps : List Step)
    (hnd : (steps.map Step.id).Nodup) :
    (buildGraph steps).adjacency =
      steps.map (fun st => (st.id, st.dependencies)) := by
  unfold buildGraph
  simpa using
    foldl_listInsert_fresh_gen Step.id Step.dependencies steps [] hnd
      (by simp)

theorem lookup_map_pairs {α : Type} {β : Type} (key : α → String)
    (f : α → β) :
    ∀ (l : List α) (a0 : α), (l.map key).Nodup → a0 ∈ l →
      (l.map (fun a => (key a, f a))).lookup (key a0) = some (f a0) := by
  intro l
  induction l with
  | nil => intro a0 _ h; cases h
  | cons a rest ih =>
      intro a0 hnd hmem
      rw [List.map_cons] at hnd
      have hknotin : key a ∉ rest.map key := (List.nodup_cons.mp hnd).1
      have hrest : (rest.map key).Nodup := (List.nodup_cons.mp hnd).2
      rw [List.map_cons, lookup_cons_beq]
      cases hmem with
      | head => rw [if_pos rfl]
      | tail _ hm =>
          have hne : key a0 ≠ key a := by
            intro hEq
            exact hknotin (hEq ▸ List.mem_map_of_mem key hm)
          rw [if_neg hne]
          exact ih a0 hrest hm

/-- C3, amended.  A dependency id that does not correspond to any step is
not rejected at graph-construction time (construction is total and never
raises); instead the sort raises a `KeyError` — the embedded
`topological_sort` returns `keyError` — which `execute_playbook` catches
before any step runs, so the report carries zero step results and overall
status `failed`. -/
theorem c3_missing_dep_keyerror (reg : ConnectorRegistry) (pb : Playbook)
    (eid : String) (st : Step) (d : String)
    (hnd : (pb.steps.map Step.id).Nodup)
    (hst : st ∈ pb.steps) (hd : d ∈ st.dependencies)
    (hmiss : d ∉ pb.steps.map Step.id) :
    (∃ m, topologicalSort (buildGraph pb.steps) = .error (.keyError m)) ∧
    (executePlaybook reg pb eid).steps = [] ∧
    (executePlaybook reg pb eid).status = "failed" := by
  set g := buildGraph pb.steps with hg
  have hsteps : g.steps = pb.steps.map (fun s => (s.id, s)) :=
    buildGraph_steps_of_nodup pb.steps hnd
  have hadj : g.adjacency = pb.steps.map (fun s => (s.id, s.dependencies)) :=
    buildGraph_adjacency_of_nodup pb.steps hnd
  have hids : g.steps.map Prod.fst = pb.steps.map Step.id := by
    rw [hsteps, List.map_map]
    rfl
  have hkeys : g.adjacency.map Prod.fst = g.steps.map Prod.fst := by
    rw [hadj, hids, List.map_map]
    rfl
  have hnotok : ∀ sorted, topologicalSort g ≠ .ok sorted := by
    intro sorted hok
    unfold topologicalSort at hok
    cases hss : sortSteps g (g.steps.map Prod.fst) [] [] with
    | error e => rw [hss] at hok; cases hok
    | ok p =>
        obtain ⟨vfin, rfin⟩ := p
        obtain ⟨_hsub, hall, hM3⟩ :=
          sortSteps_inv g (g.steps.map Prod.fst) [] [] vfin rfin hss
        have hstid_in : st.id ∈ g.steps.map Prod.fst := by
          rw [hids]
          exact List.mem_map_of_mem Step.id hst
        have hstid_v : st.id ∈ vfin := hall st.id hstid_in
        have hadjst : adjOf g st.id = st.dependencies := by
          unfold adjOf
          rw [hadj, lookup_map_pairs Step.id Step.dependencies pb.steps st
            hnd hst]
          rfl
        have hd_v : d ∈ vfin := by
          cases hM3 st.id hstid_v with
          | inl habs => cases habs
          | inr hr => exact hr.2 d (hadjst ▸ hd)
        cases hM3 d hd_v with
        | inl habs => cases habs
        | inr hr => exact hmiss (hids ▸ hr.1)
  have hm : ∃ m, topologicalSort g = .error (.keyError m) := by
    cases ht : topologicalSort g with
    | ok sorted => exact absurd ht (hnotok sorted)
    | error e =>
        cases e with
        | keyError m => exact ⟨m, rfl⟩
        | fuelExhausted =>
            unfold topologicalSort at ht
            cases hss : sortSteps g (g.steps.map Prod.fst) [] [] with
            | error e2 =>
                rw [hss] at ht
                cases ht
                exact absurd hss
                  (sortSteps_no_fuel_error g hkeys (g.steps.map Prod.fst) [] [])
            | ok p => rw [hss] at ht; cases ht
  obtain ⟨m, hme⟩ := hm
  refine ⟨⟨m, hme⟩, ?_, ?_⟩ <;>
    · unfold executePlaybook
      rw [← hg, hme]

/-- Witness for C3 amended at the concrete playbook `ghostPB` (step A
depends on the nonexistent id `"ghost"`): the sort fails with a
`KeyError` and the report has zero steps and status failed. -/
theorem c3_amended_witness :
    (∃ m, topologicalSort (buildGraph ghostPB.steps) =
      .error (.keyError m)) ∧
    (executePlaybook emptyRegistry ghostPB "e2").steps = [] ∧
    (executePlaybook emptyRegistry ghostPB "e2").status = "failed" :=
  c3_missing_dep_keyerror emptyRegistry ghostPB "e2"
    (mkStep "A" (some "template") ["ghost"]) "ghost" (by decide)
    (List.mem_singleton.mpr rfl) (List.mem_singleton.mpr rfl) (by decide)

/-! ## Coordinator trace lemmas -/

theorem statusWrites_append (n : String) (a b : List (String × AgentEvent)) :
    statusWrites n (a ++ b) = statusWrites n a ++ statusWrites n b := by
  unfold statusWrites
  exact List.filterMap_append a b _

theorem sleepsOf_append (n : String) (a b : List (String × AgentEvent)) :
    sleepsOf n (a ++ b) = sleepsOf n a ++ sleepsOf n b := by
  unfold sleepsOf
  exact List.filterMap_append a b _

theorem statusWrites_map_self (n : String) (evs : List AgentEvent) :
    statusWrites n (evs.map (fun e => (n, e))) = statusEvs evs := by
  induction evs with
  | nil => rfl
  | cons e t ih =>
      cases e <;> simp [statusWrites, statusEvs, List.filterMap_cons] at ih ⊢ <;>
        exact ih

theorem sleepsOf_map_self (n : String) (evs : List AgentEvent) :
    sleepsOf n (evs.map (fun e => (n, e))) = sleepEvs evs := by
  induction evs with
  | nil => rfl
  | cons e t ih =>
      cases e <;> simp [sleepsOf, sleepEvs, List.filterMap_cons] at ih ⊢ <;>
        exact ih

theorem statusWrites_nil_of_ne (n : String)
    (tr : List (String × AgentEvent)) (h : ∀ p ∈ tr, p.1 ≠ n) :
    statusWrites n tr = [] := by
  induction tr with
  | nil => rfl
  | cons p t ih =>
      unfold statusWrites
      rw [List.filterMap_cons]
      rw [if_neg (h p (by simp))]
      exact ih (fun q hq => h q (by simp [hq]))

theorem sleepsOf_nil_of_ne (n : String)
    (tr : List (String × AgentEvent)) (h : ∀ p ∈ tr, p.1 ≠ n) :
    sleepsOf n tr = [] := by
  induction tr with
  | nil => rfl
  | cons p t ih =>
      unfold sleepsOf
      rw [List.filterMap_cons]
      rw [if_neg (h p (by simp))]
      exact ih (fun q hq => h q (by simp [hq]))

/-! ## Resilience-loop lemmas -/

theorem resilienceLoop_wrapper_isSome (name : String) (tmo : Nat)
    (oracle : AttemptOracle) :
    ∀ (k attempt : Nat) (m : Metrics), 1 ≤ k →
      (resilienceLoop name tmo oracle attempt k m).2.2.isSome = true := by
  intro k
  induction k with
  | zero => intro attempt m h; omega
  | succ j ih =>
      intro attempt m _
      rw [resilienceLoop]
      cases oracle attempt with
      | success r lat => rfl
      | raised msg lat =>
          by_cases hj : j = 0
          · subst hj; simp
          · simp only [if_neg hj]
            exact ih (attempt + 1) _ (by omega)
      | timedOut =>
          by_cases hj : j = 0
          · subst hj; simp
          · simp only [if_neg hj]
            exact ih (attempt + 1) _ (by omega)

theorem resilienceLoop_shape (name : String) (tmo : Nat)
    (oracle : AttemptOracle) :
    ∀ (k attempt : Nat) (m : Metrics),
      (let out := resilienceLoop name tmo oracle attempt k m
       (out.2.2 = none ∧ statusEvs out.2.1 = []) ∨
       (∃ r, out.2.2 = some ⟨name, some r, none⟩ ∧
         statusEvs out.2.1 = []) ∨
       (∃ msg, out.2.2 = some ⟨name, none, some msg⟩ ∧
         ((msg = "timeout" ∧ statusEvs out.2.1 = [.timeout]) ∨
          statusEvs out.2.1 = [.failed]))) := by
  intro k
  induction k with
  | zero =>
      intro attempt m
      exact Or.inl ⟨rfl, rfl⟩
  | succ j ih =>
      intro attempt m
      simp only [resilienceLoop]
      cases oracle attempt with
      | success r lat =>
          exact Or.inr (Or.inl ⟨r, rfl, rfl⟩)
      | raised msg lat =>
          by_cases hj : j = 0
          · subst hj
            simp only [if_pos rfl]
            exact Or.inr (Or.inr ⟨msg, rfl, Or.inr rfl⟩)
          · simp only [if_neg hj]
            have := ih (attempt + 1) { m with attempts := m.attempts + 1 }
            rcases this with ⟨h1, h2⟩ | ⟨r, h1, h2⟩ | ⟨msg2, h1, h2⟩
            · exact Or.inl ⟨h1, by simp [statusEvs] at h2 ⊢; exact h2⟩
            · exact Or.inr (Or.inl ⟨r, h1, by
                simp [statusEvs] at h2 ⊢; exact h2⟩)
            · refine Or.inr (Or.inr ⟨msg2, h1, ?_⟩)
              rcases h2 with ⟨hm, he⟩ | he
              · exact Or.inl ⟨hm, by simp [statusEvs] at he ⊢; exact he⟩
              · exact Or.inr (by simp [statusEvs] at he ⊢; exact he)
      | timedOut =>
          by_cases hj : j = 0
          · subst hj
            simp only [if_pos rfl]
            exact Or.inr (Or.inr ⟨"timeout", rfl, Or.inl ⟨rfl, rfl⟩⟩)
          · simp only [if_neg hj]
            have := ih (attempt + 1) { m with attempts := m.attempts + 1 }
            rcases this with ⟨h1, h2⟩ | ⟨r, h1, h2⟩ | ⟨msg2, h1, h2⟩
            · exact Or.inl ⟨h1, by simp [statusEvs] at h2 ⊢; exact h2⟩
            · exact Or.inr (Or.inl ⟨r, h1, by
                simp [statusEvs] at h2 ⊢; exact h2⟩)
            · refine Or.inr (Or.inr ⟨msg2, h1, ?_⟩)
              rcases h2 with ⟨hm, he⟩ | he
              · exact Or.inl ⟨hm, by simp [statusEvs] at he ⊢; exact he⟩
              · exact Or.inr (by simp [statusEvs] at he ⊢; exact he)

theorem resilienceLoop_all_timeout (name : String) (tmo : Nat)
    (oracle : AttemptOracle) (h : ∀ i, oracle i = .timedOut) (m : Metrics) :
    resilienceLoop name tmo oracle 0 3 m =
      ({ m with attempts := m.attempts + 1 + 1 + 1 },
       [.sleep 500, .sleep 1000,
        .stateUpdate .timeout none
          (some ("Timeout after " ++ toString tmo ++ "s"))],
       some { agent := name, result := none, error := some "timeout" }) := by
  rw [resilienceLoop, h 0]
  rw [if_neg (by omega)]
  simp only
  rw [resilienceLoop, h 1]
  rw [if_neg (by omega)]
  simp only
  rw [resilienceLoop, h 2]
  rw [if_pos rfl]
  norm_num

theorem resilienceLoop_no_success_metrics (name : String) (tmo : Nat)
    (oracle : AttemptOracle) (h : ∀ i, (oracle i).isSuccess = false) :
    ∀ (k attempt : Nat) (m : Metrics),
      (resilienceLoop name tmo oracle attempt k m).1.attempts =
        m.attempts + k ∧
      (resilienceLoop name tmo oracle attempt k m).1.totalLatencyMs =
        m.totalLatencyMs ∧
      (resilienceLoop name tmo oracle attempt k m).1.maxLatencyMs =
        m.maxLatencyMs := by
  intro k
  induction k with
  | zero => intro attempt m; exact ⟨rfl, rfl, rfl⟩
  | succ j ih =>
      intro attempt m
      rw [resilienceLoop]
      cases ho : oracle attempt with
      | success r lat =>
          exact absurd (ho ▸ h attempt) (by simp [AttemptOutcome.isSuccess])
      | raised msg lat =>
          by_cases hj : j = 0
          · subst hj; simp
          · simp only [if_neg hj]
            have := ih (attempt + 1) { m with attempts := m.attempts + 1 }
            refine ⟨?_, this.2.1, this.2.2⟩
            rw [this.1]
            simp
            omega
      | timedOut =>
          by_cases hj : j = 0
          · subst hj; simp
          · simp only [if_neg hj]
            have := ih (attempt + 1) { m with attempts := m.attempts + 1 }
            refine ⟨?_, this.2.1, this.2.2⟩
            rw [this.1]
            simp
            omega

theorem resilienceLoop_success_attempt (name : String) (tmo : Nat)
    (oracle : AttemptOracle) (k attempt : Nat) (m : Metrics) (r : Value)
    (lat : Nat) (h : oracle attempt = .success r lat) :
    resilienceLoop name tmo oracle attempt (k + 1) m =
      ({ attempts := m.attempts + 1,
         totalLatencyMs := m.totalLatencyMs + lat,
         maxLatencyMs := Nat.max m.maxLatencyMs lat },
       [], some { agent := name, result := some r, error := none }) := by
  rw [resilienceLoop, h]

/-! ## Gather-phase lemmas -/

theorem runAgentGather_keys (jc : JobContext) (t : AgentTask)
    (o : AttemptOracle) (m0 : Metrics) :
    (runAgentGather jc t o m0).1.agent_state.map Prod.fst =
      jc.agent_state.map Prod.fst := by
  unfold runAgentGather
  split
  · dsimp only
    rw [applyEvents_keys, setAgentStatus_keys]
  · rfl

theorem runAgentGather_tags (jc : JobContext) (t : AgentTask)
    (o : AttemptOracle) (m0 : Metrics) :
    ∀ p ∈ (runAgentGather jc t o m0).2.2.1, p.1 = t.name := by
  unfold runAgentGather
  split
  · dsimp only
    intro p hp
    cases hp with
    | head => rfl
    | tail _ hm =>
        obtain ⟨e, _he, hpe⟩ := List.mem_map.mp hm
        rw [← hpe]
  · intro p hp
    cases hp

theorem runAgentGather_of_known (jc : JobContext) (t : AgentTask)
    (o : AttemptOracle) (m0 : Metrics)
    (h : (jc.agent_state.lookup t.name).isSome = true) :
    runAgentGather jc t o m0 =
      (applyEvents (setAgentStatus jc t.name .active)
         ((resilienceLoop t.name t.timeoutSec o 0 t.maxRetries m0).2.1.map
           (fun e => (t.name, e))),
       (resilienceLoop t.name t.timeoutSec o 0 t.maxRetries m0).1,
       (t.name, AgentEvent.statusSet .active) ::
         (resilienceLoop t.name t.timeoutSec o 0 t.maxRetries m0).2.1.map
           (fun e => (t.name, e)),
       .val (resilienceLoop t.name t.timeoutSec o 0 t.maxRetries m0).2.2) := by
  unfold runAgentGather
  rw [if_pos h]

theorem gatherPhase_keys :
    ∀ (regs : List (AgentTask × AttemptOracle)) (ms : List (String × Metrics))
      (jc : JobContext),
      (gatherPhase ms jc regs).1.agent_state.map Prod.fst =
        jc.agent_state.map Prod.fst := by
  intro regs
  induction regs with
  | nil => intro ms jc; rfl
  | cons p rest ih =>
      intro ms jc
      obtain ⟨t, o⟩ := p
      rw [gatherPhase]
      dsimp only
      rw [ih, runAgentGather_keys]

theorem gatherPhase_tags :
    ∀ (regs : List (AgentTask × AttemptOracle)) (ms : List (String × Metrics))
      (jc : JobContext),
      ∀ p ∈ (gatherPhase ms jc regs).2.2.1,
        p.1 ∈ regs.map (fun q => q.1.name) := by
  intro regs
  induction regs with
  | nil => intro ms jc p hp; cases hp
  | cons q rest ih =>
      intro ms jc p hp
      obtain ⟨t, o⟩ := q
      rw [gatherPhase] at hp
      dsimp only at hp
      rw [List.map_cons]
      cases List.mem_append.mp hp with
      | inl hl =>
          rw [runAgentGather_tags jc t o _ p hl]
          exact List.mem_cons_self _ _
      | inr hr =>
          exact List.mem_cons_of_mem _ (ih _ _ p hr)

theorem gatherPhase_gs_names :
    ∀ (regs : List (AgentTask × AttemptOracle)) (ms : List (String × Metrics))
      (jc : JobContext),
      (gatherPhase ms jc regs).2.2.2.map Prod.fst =
        regs.map (fun q => q.1.name) := by
  intro regs
  induction regs with
  | nil => intro ms jc; rfl
  | cons q rest ih =>
      intro ms jc
      obtain ⟨t, o⟩ := q
      rw [gatherPhase]
      dsimp only
      rw [List.map_cons, List.map_cons, ih]

theorem gatherPhase_metrics_untouched :
    ∀ (regs : List (AgentTask × AttemptOracle)) (ms : List (String × Metrics))
      (jc : JobContext) (n : String),
      n ∉ regs.map (fun q => q.1.name) →
      (gatherPhase ms jc regs).2.1.lookup n = ms.lookup n := by
  intro regs
  induction regs with
  | nil => intro ms jc n _; rfl
  | cons q rest ih =>
      intro ms jc n hn
      obtain ⟨t, o⟩ := q
      rw [List.map_cons] at hn
      have hne : n ≠ t.name := fun h => hn (h ▸ List.mem_cons_self _ _)
      have hrest : n ∉ rest.map (fun q => q.1.name) :=
        fun h => hn (List.mem_cons_of_mem _ h)
      rw [gatherPhase]
      dsimp only
      rw [ih _ _ n hrest, listInsert_lookup_ne _ _ _ n hne]

theorem gather_agent_spec :
    ∀ (regs : List (AgentTask × AttemptOracle)) (ms : List (String × Metrics))
      (jc : JobContext) (t : AgentTask) (o : AttemptOracle),
      (regs.map (fun q => q.1.name)).Nodup →
      (t, o) ∈ regs →
      (jc.agent_state.lookup t.name).isSome = true →
      (statusWrites t.name (gatherPhase ms jc regs).2.2.1 =
        .active :: statusEvs (resilienceLoop t.name t.timeoutSec o 0
          t.maxRetries ((ms.lookup t.name).getD Metrics.zero)).2.1) ∧
      (sleepsOf t.name (gatherPhase ms jc regs).2.2.1 =
        sleepEvs (resilienceLoop t.name t.timeoutSec o 0 t.maxRetries
          ((ms.lookup t.name).getD Metrics.zero)).2.1) ∧
      ((gatherPhase ms jc regs).2.1.lookup t.name =
        some (resilienceLoop t.name t.timeoutSec o 0 t.maxRetries
          ((ms.lookup t.name).getD Metrics.zero)).1) ∧
      ((t.name, GatherResult.val (resilienceLoop t.name t.timeoutSec o 0
          t.maxRetries ((ms.lookup t.name).getD Metrics.zero)).2.2) ∈
        (gatherPhase ms jc regs).2.2.2) := by
  intro regs
  induction regs with
  | nil => intro ms jc t o _ hmem _; cases hmem
  | cons q rest ih =>
      intro ms jc t o hnd hmem hknown
      obtain ⟨t0, o0⟩ := q
      rw [List.map_cons] at hnd
      have h0notin : t0.name ∉ rest.map (fun q => q.1.name) :=
        (List.nodup_cons.mp hnd).1
      have hndrest : (rest.map (fun q => q.1.name)).Nodup :=
        (List.nodup_cons.mp hnd).2
      rw [gatherPhase]
      dsimp only
      cases hmem with
      | head =>
          rw [runAgentGather_of_known jc t o _ hknown]
          dsimp only
          have hrestnil : ∀ p ∈ (gatherPhase
              (listInsert ms t.name
                (resilienceLoop t.name t.timeoutSec o 0 t.maxRetries
                  ((ms.lookup t.name).getD Metrics.zero)).1)
              (applyEvents (setAgentStatus jc t.name .active)
                ((resilienceLoop t.name t.timeoutSec o 0 t.maxRetries
                  ((ms.lookup t.name).getD Metrics.zero)).2.1.map
                  (fun e => (t.name, e)))) rest).2.2.1, p.1 ≠ t.name := by
            intro p hp hEq
            exact h0notin (hEq ▸ gatherPhase_tags rest _ _ p hp)
          refine ⟨?_, ?_, ?_, ?_⟩
          · rw [statusWrites_append]
            rw [statusWrites_nil_of_ne _ _ hrestnil, List.append_nil]
            unfold statusWrites
            rw [List.filterMap_cons]
            rw [if_pos rfl]
            show AgentStatus.active :: statusWrites t.name _ = _
            rw [statusWrites_map_self]
          · rw [sleepsOf_append]
            rw [sleepsOf_nil_of_ne _ _ hrestnil, List.append_nil]
            unfold sleepsOf
            rw [List.filterMap_cons]
            rw [if_pos rfl]
            show sleepsOf t.name _ = _
            rw [sleepsOf_map_self]
          · rw [gatherPhase_metrics_untouched rest _ _ t.name h0notin,
              listInsert_lookup_self]
          · exact List.mem_cons_self _ _
      | tail _ hmem' =>
          have htin : t.name ∈ rest.map (fun q => q.1.name) := by
            exact List.mem_map.mpr ⟨(t, o), hmem', rfl⟩
          have hne : t.name ≠ t0.name :=
            fun h => h0notin (h ▸ htin)
          have hknown1 : (((runAgentGather jc t0 o0
              ((ms.lookup t0.name).getD Metrics.zero)).1).agent_state.lookup
                t.name).isSome = true := by
            rw [lookup_isSome_iff, runAgentGather_keys,
              ← lookup_isSome_iff]
            exact hknown
          have hms1 : (listInsert ms t0.name
              (runAgentGather jc t0 o0
                ((ms.lookup t0.name).getD Metrics.zero)).2.1).lookup t.name =
              ms.lookup t.name :=
            listInsert_lookup_ne _ _ _ t.name hne
          have hout := ih
            (listInsert ms t0.name
              (runAgentGather jc t0 o0
                ((ms.lookup t0.name).getD Metrics.zero)).2.1)
            (runAgentGather jc t0 o0 ((ms.lookup t0.name).getD Metrics.zero)).1
            t o hndrest hmem' hknown1
          rw [hms1] at hout
          have hheadnil : ∀ p ∈ (runAgentGather jc t0 o0
              ((ms.lookup t0.name).getD Metrics.zero)).2.2.1,
              p.1 ≠ t.name := by
            intro p hp hEq
            exact hne (hEq ▸ (runAgentGather_tags jc t0 o0 _ p hp) :
              t.name = t0.name)
          refine ⟨?_, ?_, hout.2.2.1, List.mem_cons_of_mem _ hout.2.2.2⟩
          · rw [statusWrites_append, statusWrites_nil_of_ne _ _ hheadnil,
              List.nil_append]
            exact hout.1
          · rw [sleepsOf_append, sleepsOf_nil_of_ne _ _ hheadnil,
              List.nil_append]
            exact hout.2.1

/-! ## Merge-phase lemmas -/

theorem mergeArtifacts_ok_agent_state (jc : JobContext) (v : Option Value)
    (jc2 : JobContext) (h : mergeArtifacts jc v = .ok jc2) :
    jc2.agent_state = jc.agent_state := by
  unfold mergeArtifacts at h
  cases v with
  | none =>
      injection h with h2
      rw [← h2]
  | some val =>
      dsimp only at h
      by_cases ht : pyTruthy val = true
      · rw [if_pos ht] at h
        cases val with
        | dict kvs =>
            dsimp only at h
            cases hl : kvs.lookup "artifacts" with
            | none =>
                rw [hl] at h
                injection h with h2
                rw [← h2]
            | some av =>
                rw [hl] at h
                cases av with
                | dict akvs =>
                    dsimp only at h
                    injection h with h2
                    rw [← h2]
                | null => cases h
                | str s2 => cases h
                | num q => cases h
                | bool b => cases h
                | list xs => cases h
        | list xs =>
            dsimp only at h
            by_cases hx : xs.any (isStrEq "artifacts") = true
            · rw [if_pos hx] at h
              cases h
            · rw [if_neg hx] at h
              injection h with h2
              rw [← h2]
        | str s2 =>
            dsimp only at h
            by_cases hx : (s2.splitOn "artifacts").length > 1
            · rw [if_pos hx] at h
              cases h
            · rw [if_neg hx] at h
              injection h with h2
              rw [← h2]
        | null => dsimp only at h; cases h
        | num q => dsimp only at h; cases h
        | bool b => dsimp only at h; cases h
      · rw [if_neg ht] at h
        injection h with h2
        rw [← h2]

theorem mergePhase_untouched :
    ∀ (gs : List (String × GatherResult)) (jc : JobContext) (n : String),
      n ∉ gs.map Prod.fst →
      (mergePhase jc gs).1.agent_state.lookup n =
        jc.agent_state.lookup n := by
  intro gs
  induction gs with
  | nil => intro jc n _; rfl
  | cons p rest ih =>
      intro jc n hn
      obtain ⟨n0, g0⟩ := p
      rw [List.map_cons] at hn
      have hne : n ≠ n0 := fun h => hn (h ▸ List.mem_cons_self _ _)
      have hrest : n ∉ rest.map Prod.fst :=
        fun h => hn (List.mem_cons_of_mem _ h)
      rw [mergePhase.eq_def]
      try dsimp only
      cases g0 with
      | exc msg =>
          try dsimp only
          rw [ih _ n hrest, updateAgentState_lookup_ne _ _ _ _ _ _ hne]
      | val w =>
          cases w with
          | none => rfl
          | some wr =>
              try dsimp only
              by_cases hterr : truthyErr wr.error = true
              · rw [if_pos hterr]
                try dsimp only
                rw [ih _ n hrest, updateAgentState_lookup_ne _ _ _ _ _ _ hne]
              · rw [if_neg hterr]
                try dsimp only
                cases hart : mergeArtifacts
                    (updateAgentState jc n0 .completed wr.result none)
                    wr.result with
                | error e =>
                    try rw [hart]
                    try dsimp only
                    rw [updateAgentState_lookup_ne _ _ _ _ _ _ hne]
                | ok jc2 =>
                    try rw [hart]
                    try dsimp only
                    rw [ih _ n hrest]
                    have := mergeArtifacts_ok_agent_state _ _ _ hart
                    rw [this, updateAgentState_lookup_ne _ _ _ _ _ _ hne]

theorem mergePhase_keys :
    ∀ (gs : List (String × GatherResult)) (jc : JobContext),
      (mergePhase jc gs).1.agent_state.map Prod.fst =
        jc.agent_state.map Prod.fst := by
  intro gs
  induction gs with
  | nil => intro jc; rfl
  | cons p rest ih =>
      intro jc
      obtain ⟨n0, g0⟩ := p
      rw [mergePhase.eq_def]
      try dsimp only
      cases g0 with
      | exc msg =>
          try dsimp only
          rw [ih, updateAgentState_keys]
      | val w =>
          cases w with
          | none => rfl
          | some wr =>
              try dsimp only
              by_cases hterr : truthyErr wr.error = true
              · rw [if_pos hterr]
                try dsimp only
                rw [ih, updateAgentState_keys]
              · rw [if_neg hterr]
                try dsimp only
                cases hart : mergeArtifacts
                    (updateAgentState jc n0 .completed wr.result none)
                    wr.result with
                | error e =>
                    try rw [hart]
                    try dsimp only
                    rw [updateAgentState_keys]
                | ok jc2 =>
                    try rw [hart]
                    try dsimp only
                    rw [ih]
                    have := mergeArtifacts_ok_agent_state _ _ _ hart
                    rw [show jc2.agent_state.map Prod.fst =
                      (updateAgentState jc n0 .completed wr.result
                        none).agent_state.map Prod.fst from by rw [this],
                      updateAgentState_keys]

theorem mergePhase_tags :
    ∀ (gs : List (String × GatherResult)) (jc : JobContext),
      ∀ p ∈ (mergePhase jc gs).2.1, p.1 ∈ gs.map Prod.fst := by
  intro gs
  induction gs with
  | nil => intro jc p hp; cases hp
  | cons q rest ih =>
      intro jc p hp
      obtain ⟨n0, g0⟩ := q
      rw [List.map_cons]
      rw [mergePhase.eq_def] at hp
      dsimp only at hp
      have hevs : ∀ (evs : List (String × AgentEvent)) (jc1 : JobContext),
          (∀ r ∈ evs, r.1 = n0) →
          p ∈ evs ++ (mergePhase jc1 rest).2.1 →
          p.1 ∈ n0 :: rest.map Prod.fst := by
        intro evs jc1 hall hmem
        cases List.mem_append.mp hmem with
        | inl hl => rw [hall p hl]; exact List.mem_cons_self _ _
        | inr hr => exact List.mem_cons_of_mem _ (ih _ p hr)
      cases g0 with
      | exc msg =>
          dsimp only at hp
          refine hevs _ _ ?_ hp
          intro r hr
          by_cases hk : (jc.agent_state.lookup n0).isSome = true
          · rw [if_pos hk] at hr
            cases hr with
            | head => rfl
            | tail _ hm => cases hm
          · rw [if_neg hk] at hr
            cases hr
      | val w =>
          cases w with
          | none =>
              dsimp only at hp
              cases hp
          | some wr =>
              dsimp only at hp
              by_cases hterr : truthyErr wr.error = true
              · rw [if_pos hterr] at hp
                dsimp only at hp
                refine hevs _ _ ?_ hp
                intro r hr
                by_cases hk : (jc.agent_state.lookup n0).isSome = true
                · rw [if_pos hk] at hr
                  cases hr with
                  | head => rfl
                  | tail _ hm => cases hm
                · rw [if_neg hk] at hr
                  cases hr
              · rw [if_neg hterr] at hp
                try dsimp only at hp
                cases hart : mergeArtifacts
                    (updateAgentState jc n0 .completed wr.result none)
                    wr.result with
                | error e =>
                    rw [hart] at hp
                    dsimp only at hp
                    by_cases hk : (jc.agent_state.lookup n0).isSome = true
                    · rw [if_pos hk] at hp
                      cases hp with
                      | head => exact List.mem_cons_self _ _
                      | tail _ hm => cases hm
                    · rw [if_neg hk] at hp
                      cases hp
                | ok jc2 =>
                    rw [hart] at hp
                    dsimp only at hp
                    refine hevs _ _ ?_ hp
                    intro r hr
                    by_cases hk : (jc.agent_state.lookup n0).isSome = true
                    · rw [if_pos hk] at hr
                      cases hr with
                      | head => rfl
                      | tail _ hm => cases hm
                    · rw [if_neg hk] at hr
                      cases hr

theorem mergePhase_no_sleeps :
    ∀ (gs : List (String × GatherResult)) (jc : JobContext) (n : String),
      sleepsOf n (mergePhase jc gs).2.1 = [] := by
  intro gs
  induction gs with
  | nil => intro jc n; rfl
  | cons q rest ih =>
      intro jc n
      obtain ⟨n0, g0⟩ := q
      rw [mergePhase.eq_def]
      try dsimp only
      have hone : ∀ (st : AgentStatus) (r : Option Value) (e : Option String)
          (jc1 : JobContext),
          sleepsOf n ((if (jc.agent_state.lookup n0).isSome then
            [(n0, AgentEvent.stateUpdate st r e)] else []) ++
            (mergePhase jc1 rest).2.1) = [] := by
        intro st r e jc1
        rw [sleepsOf_append, ih]
        by_cases hk : (jc.agent_state.lookup n0).isSome = true
        · rw [if_pos hk, List.append_nil]
          unfold sleepsOf
          rw [List.filterMap_eq_nil]
          intro a ha
          rw [List.mem_singleton] at ha
          subst ha
          by_cases hn : n0 = n <;> simp [hn]
        · rw [if_neg hk]
          rfl
      cases g0 with
      | exc msg => exact hone _ _ _ _
      | val w =>
          cases w with
          | none =>
              try dsimp only
              rfl
          | some wr =>
              try dsimp only
              by_cases hterr : truthyErr wr.error = true
              · rw [if_pos hterr]
                exact hone _ _ _ _
              · rw [if_neg hterr]
                try dsimp only
                cases hart : mergeArtifacts
                    (updateAgentState jc n0 .completed wr.result none)
                    wr.result with
                | error e =>
                    try rw [hart]
                    try dsimp only
                    by_cases hk : (jc.agent_state.lookup n0).isSome = true
                    · rw [if_pos hk]
                      unfold sleepsOf
                      rw [List.filterMap_eq_nil]
                      intro a ha
                      rw [List.mem_singleton] at ha
                      subst ha
                      by_cases hn : n0 = n <;> simp [hn]
                    · rw [if_neg hk]
                      rfl
                | ok jc2 => exact hone _ _ _ _

theorem statusWrites_singleton_self (n : String) (st : AgentStatus)
    (r : Option Value) (e : Option String) :
    statusWrites n [(n, AgentEvent.stateUpdate st r e)] = [st] := by
  unfold statusWrites
  rw [List.filterMap_cons]
  rw [if_pos rfl]
  rfl

theorem merge_agent_spec :
    ∀ (gs : List (String × GatherResult)) (jc : JobContext) (n : String)
      (g : GatherResult),
      (gs.map Prod.fst).Nodup →
      (n, g) ∈ gs →
      (jc.agent_state.lookup n).isSome = true →
      (mergePhase jc gs).2.2 = none →
      ∃ st, mergeWriteStatus g = some st ∧
        statusWrites n (mergePhase jc gs).2.1 = [st] ∧
        ∃ a, (mergePhase jc gs).1.agent_state.lookup n = some a ∧
          a.status = st := by
  intro gs
  induction gs with
  | nil => intro jc n g _ hm _ _; cases hm
  | cons q rest ih =>
      intro jc n g hnd hm hknown hraised
      obtain ⟨n0, g0⟩ := q
      rw [List.map_cons] at hnd
      have h0notin : n0 ∉ rest.map Prod.fst := (List.nodup_cons.mp hnd).1
      have hndrest : (rest.map Prod.fst).Nodup := (List.nodup_cons.mp hnd).2
      cases hm with
      | head =>
          obtain ⟨a, ha⟩ := Option.isSome_iff_exists.mp hknown
          rw [mergePhase.eq_def] at hraised ⊢
          dsimp only at hraised ⊢
          have hrestnil : ∀ (jc1 : JobContext),
              statusWrites n (mergePhase jc1 rest).2.1 = [] := by
            intro jc1
            apply statusWrites_nil_of_ne
            intro p hp hEq
            exact h0notin (hEq ▸ mergePhase_tags rest jc1 p hp)
          cases g with
          | exc msg =>
              refine ⟨.failed, rfl, ?_, ?_⟩
              · rw [statusWrites_append, hrestnil, List.append_nil,
                  if_pos hknown, statusWrites_singleton_self]
              · refine ⟨applyStateUpdate a .failed none (some msg), ?_, ?_⟩
                · rw [mergePhase_untouched rest _ n h0notin]
                  exact updateAgentState_lookup_self jc n _ _ _ a ha
                · exact applyStateUpdate_status a _ _ _
          | val w =>
              cases w with
              | none => cases hraised
              | some wr =>
                  try dsimp only at hraised ⊢
                  by_cases hterr : truthyErr wr.error = true
                  · rw [if_pos hterr] at hraised ⊢
                    dsimp only at hraised ⊢
                    refine ⟨.failed, by simp [mergeWriteStatus, hterr], ?_, ?_⟩
                    · rw [statusWrites_append, hrestnil, List.append_nil,
                        if_pos hknown, statusWrites_singleton_self]
                    · refine ⟨applyStateUpdate a .failed none wr.error, ?_, ?_⟩
                      · rw [mergePhase_untouched rest _ n h0notin]
                        exact updateAgentState_lookup_self jc n _ _ _ a ha
                      · exact applyStateUpdate_status a _ _ _
                  · rw [if_neg hterr] at hraised ⊢
                    try dsimp only at hraised ⊢
                    cases hart : mergeArtifacts
                        (updateAgentState jc n .completed wr.result none)
                        wr.result with
                    | error e =>
                        rw [hart] at hraised
                        cases hraised
                    | ok jc2 =>
                        rw [hart] at hraised
                        try rw [hart]
                        try dsimp only at hraised ⊢
                        refine ⟨.completed,
                          by simp [mergeWriteStatus, hterr], ?_, ?_⟩
                        · rw [statusWrites_append, hrestnil, List.append_nil,
                            if_pos hknown, statusWrites_singleton_self]
                        · refine ⟨applyStateUpdate a .completed wr.result none,
                            ?_, ?_⟩
                          · rw [mergePhase_untouched rest _ n h0notin,
                              mergeArtifacts_ok_agent_state _ _ _ hart]
                            exact updateAgentState_lookup_self jc n _ _ _ a ha
                          · exact applyStateUpdate_status a _ _ _
      | tail _ hm' =>
          have hnin : n ∈ rest.map Prod.fst :=
            List.mem_map.mpr ⟨(n, g), hm', rfl⟩
          have hne : n ≠ n0 := fun h => h0notin (h ▸ hnin)
          rw [mergePhase.eq_def] at hraised ⊢
          dsimp only at hraised ⊢
          have hevnil : ∀ (st0 : AgentStatus) (r0 : Option Value)
              (e0 : Option String),
              statusWrites n (if (jc.agent_state.lookup n0).isSome then
                [(n0, AgentEvent.stateUpdate st0 r0 e0)] else []) = [] := by
            intro st0 r0 e0
            by_cases hk : (jc.agent_state.lookup n0).isSome = true
            · rw [if_pos hk]
              apply statusWrites_nil_of_ne
              intro p hp
              rw [List.mem_singleton] at hp
              subst hp
              exact Ne.symm hne
            · rw [if_neg hk]
              rfl
          cases g0 with
          | exc msg =>
              have hknown1 : ((updateAgentState jc n0 .failed none
                  (some msg)).agent_state.lookup n).isSome = true := by
                rw [updateAgentState_lookup_ne _ _ _ _ _ _ hne]
                exact hknown
              obtain ⟨st, hst, hsw, hfin⟩ :=
                ih _ n g hndrest hm' hknown1 hraised
              refine ⟨st, hst, ?_, hfin⟩
              rw [statusWrites_append, hevnil, List.nil_append, hsw]
          | val w =>
              cases w with
              | none => cases hraised
              | some wr =>
                  try dsimp only at hraised ⊢
                  by_cases hterr : truthyErr wr.error = true
                  · rw [if_pos hterr] at hraised ⊢
                    dsimp only at hraised ⊢
                    have hknown1 : ((updateAgentState jc n0 .failed none
                        wr.error).agent_state.lookup n).isSome = true := by
                      rw [updateAgentState_lookup_ne _ _ _ _ _ _ hne]
                      exact hknown
                    obtain ⟨st, hst, hsw, hfin⟩ :=
                      ih _ n g hndrest hm' hknown1 hraised
                    refine ⟨st, hst, ?_, hfin⟩
                    rw [statusWrites_append, hevnil, List.nil_append, hsw]
                  · rw [if_neg hterr] at hraised ⊢
                    try dsimp only at hraised ⊢
                    cases hart : mergeArtifacts
                        (updateAgentState jc n0 .completed wr.result none)
                        wr.result with
                    | error e =>
                        rw [hart] at hraised
                        cases hraised
                    | ok jc2 =>
                        rw [hart] at hraised
                        try rw [hart]
                        try dsimp only at hraised ⊢
                        have hknown1 : (jc2.agent_state.lookup n).isSome =
                            true := by
                          rw [mergeArtifacts_ok_agent_state _ _ _ hart,
                            updateAgentState_lookup_ne _ _ _ _ _ _ hne]
                          exact hknown
                        obtain ⟨st, hst, hsw, hfin⟩ :=
                          ih _ n g hndrest hm' hknown1 hraised
                        refine ⟨st, hst, ?_, hfin⟩
                        rw [statusWrites_append, hevnil, List.nil_append, hsw]

/-! ## Run-level lemmas -/

theorem executeParallel_components (jc0 : JobContext)
    (tasks : List (AgentTask × AttemptOracle)) :
    (executeParallel jc0 tasks).trace =
      (gatherOut jc0 tasks).2.2.1 ++ (mergeOut jc0 tasks).2.1 ∧
    (executeParallel jc0 tasks).raised = (mergeOut jc0 tasks).2.2 ∧
    (executeParallel jc0 tasks).metrics = (gatherOut jc0 tasks).2.1 ∧
    (executeParallel jc0 tasks).jc = (mergeOut jc0 tasks).1 :=
  ⟨rfl, rfl, rfl, rfl⟩

theorem registerOne_names (acc : List (AgentTask × AttemptOracle))
    (p : AgentTask × AttemptOracle) :
    (registerOne acc p).map (fun q => q.1.name) =
      if acc.any (fun q => q.1.name = p.1.name) then
        acc.map (fun q => q.1.name)
      else acc.map (fun q => q.1.name) ++ [p.1.name] := by
  unfold registerOne
  split
  · rename_i h
    rw [List.map_map]
    apply List.map_congr_left
    intro q _
    by_cases hc : q.1.name = p.1.name
    · simp [hc]
    · simp [hc]
  · rename_i h
    simp

theorem registerAgents_nodup_aux :
    ∀ (ts acc : List (AgentTask × AttemptOracle)),
      (acc.map (fun q => q.1.name)).Nodup →
      ((ts.foldl registerOne acc).map (fun q => q.1.name)).Nodup := by
  intro ts
  induction ts with
  | nil => intro acc h; exact h
  | cons p rest ih =>
      intro acc hacc
      show ((rest.foldl registerOne (registerOne acc p)).map _).Nodup
      apply ih
      rw [registerOne_names]
      by_cases hany : acc.any (fun q => q.1.name = p.1.name) = true
      · rw [if_pos hany]
        exact hacc
      · rw [if_neg hany]
        have hnot : p.1.name ∉ acc.map (fun q => q.1.name) := by
          intro hmem
          apply hany
          obtain ⟨q, hq, hqn⟩ := List.mem_map.mp hmem
          exact List.any_eq_true.mpr ⟨q, hq, by simp [hqn]⟩
        simp [List.nodup_append, hacc, hnot]

theorem registerAgents_nodup (ts : List (AgentTask × AttemptOracle)) :
    ((registerAgents ts).map (fun q => q.1.name)).Nodup :=
  registerAgents_nodup_aux ts [] (by simp)

theorem lookup_map_const {α : Type} {β : Type} (key : α → String) (c : β) :
    ∀ (l : List α) (n : String), n ∈ l.map key →
      (l.map (fun a => (key a, c))).lookup n = some c := by
  intro l
  induction l with
  | nil => intro n h; cases h
  | cons a rest ih =>
      intro n hmem
      rw [List.map_cons, lookup_cons_beq]
      rw [List.map_cons] at hmem
      by_cases hn : n = key a
      · rw [if_pos hn]
      · rw [if_neg hn]
        cases hmem with
        | head => exact absurd rfl hn
        | tail _ hm => exact ih n hm

/-- C4, amended.  For every coordinator run that returns normally, an
agent (with a state entry and at least one retry) gets the status write
sequence [active, mergeStatus] when its work eventually succeeded, or
[active, exhaustStatus, mergeStatus] when its retries were exhausted:
the terminal status the resilience wrapper writes at exhaustion can thus
be changed once — and only by the single post-barrier merge write, after
which nothing is written; in particular a timed-out agent's terminal
`timeout` is rewritten to `failed` by the merge (its wrapper error
`"timeout"` is truthy). -/
theorem c4_terminal_overwritten_only_by_merge (jc0 : JobContext)
    (tasks : List (AgentTask × AttemptOracle)) (t : AgentTask)
    (o : AttemptOracle)
    (hmem : (t, o) ∈ registerAgents tasks)
    (hmr : 1 ≤ t.maxRetries)
    (hknown : (jc0.agent_state.lookup t.name).isSome = true)
    (hraised : (executeParallel jc0 tasks).raised = none) :
    ∃ m, m.isTerminal = true ∧
      (statusWrites t.name (executeParallel jc0 tasks).trace =
          [.active, m] ∨
       ∃ e, e.isTerminal = true ∧
         statusWrites t.name (executeParallel jc0 tasks).trace =
           [.active, e, m] ∧ (e = .timeout → m = .failed)) := by
  have hcomp := executeParallel_components jc0 tasks
  rw [hcomp.2.1] at hraised
  rw [hcomp.1]
  have hnd := registerAgents_nodup tasks
  have hg := gather_agent_spec (registerAgents tasks)
    ((registerAgents tasks).map (fun p => (p.1.name, Metrics.zero))) jc0 t o
    hnd hmem hknown
  have hms0 : (((registerAgents tasks).map
      (fun p => (p.1.name, Metrics.zero))).lookup t.name) =
      some Metrics.zero :=
    lookup_map_const (fun p => p.1.name) Metrics.zero _ t.name
      (List.mem_map.mpr ⟨(t, o), hmem, rfl⟩)
  rw [hms0] at hg
  simp only [Option.getD_some] at hg
  obtain ⟨hsw_g, _hsl_g, _hm_g, hgs_mem⟩ := hg
  have hgo : gatherPhase ((registerAgents tasks).map
      (fun p => (p.1.name, Metrics.zero))) jc0 (registerAgents tasks) =
      gatherOut jc0 tasks := rfl
  rw [hgo] at hsw_g hgs_mem
  have hw := resilienceLoop_wrapper_isSome t.name t.timeoutSec o
    t.maxRetries 0 Metrics.zero hmr
  obtain ⟨wr, hwr⟩ := Option.isSome_iff_exists.mp hw
  have hgsnd : ((gatherOut jc0 tasks).2.2.2.map Prod.fst).Nodup := by
    show ((gatherPhase _ _ _).2.2.2.map Prod.fst).Nodup
    rw [gatherPhase_gs_names]
    exact hnd
  have hknown_m : ((gatherOut jc0 tasks).1.agent_state.lookup
      t.name).isSome = true := by
    show (((gatherPhase _ _ _).1).agent_state.lookup t.name).isSome = true
    rw [lookup_isSome_iff, gatherPhase_keys, ← lookup_isSome_iff]
    exact hknown
  have hgs_mem2 : (t.name, GatherResult.val (some wr)) ∈
      (gatherOut jc0 tasks).2.2.2 := by
    rw [← hwr]
    exact hgs_mem
  obtain ⟨st, hst, hsw_m, a, _hfin, _hast⟩ :=
    merge_agent_spec (gatherOut jc0 tasks).2.2.2 (gatherOut jc0 tasks).1
      t.name (.val (some wr)) hgsnd hgs_mem2 hknown_m hraised
  have hmo : mergePhase (gatherOut jc0 tasks).1 (gatherOut jc0 tasks).2.2.2 =
      mergeOut jc0 tasks := rfl
  rw [hmo] at hsw_m
  have hst2 : st = if truthyErr wr.error then AgentStatus.failed
      else AgentStatus.completed := by
    have : mergeWriteStatus (GatherResult.val (some wr)) =
        some (if truthyErr wr.error then AgentStatus.failed
          else AgentStatus.completed) := rfl
    rw [this] at hst
    exact (Option.some.inj hst).symm
  rw [statusWrites_append, hsw_g, hsw_m]
  rcases resilienceLoop_shape t.name t.timeoutSec o t.maxRetries 0
      Metrics.zero with ⟨hnone, _⟩ | ⟨r, hwv, hevs⟩ | ⟨msg, hwv, hrest2⟩
  · rw [hwr] at hnone
    cases hnone
  · rw [hwr] at hwv
    have hwr2 : wr = ⟨t.name, some r, none⟩ := Option.some.inj hwv
    have hterr : truthyErr wr.error = false := by
      rw [hwr2]
      rfl
    rw [hterr] at hst2
    refine ⟨.completed, rfl, Or.inl ?_⟩
    rw [hevs, hst2]
    rfl
  · rw [hwr] at hwv
    have hwr2 : wr = ⟨t.name, none, some msg⟩ := Option.some.inj hwv
    rcases hrest2 with ⟨hmsg, hevs⟩ | hevs
    · have hterr : truthyErr wr.error = true := by
        rw [hwr2, hmsg]
        rfl
      rw [hterr] at hst2
      refine ⟨.failed, rfl, Or.inr ⟨.timeout, rfl, ?_, fun _ => rfl⟩⟩
      rw [hevs, hst2]
      rfl
    · refine ⟨st, ?_, Or.inr ⟨.failed, rfl, ?_, fun h => nomatch h⟩⟩
      · rw [hst2]
        by_cases hc : truthyErr wr.error = true
        · rw [if_pos hc]
          rfl
        · rw [if_neg hc]
          rfl
      · rw [hevs]
        rfl

/-- Witness for C4 amended at the always-timing-out run: the status
write sequence is exactly [active, timeout, failed]. -/
theorem c4_amended_witness :
    ∃ m, m.isTerminal = true ∧
      (statusWrites "collector" alwaysTimeoutRun.trace = [.active, m] ∨
       ∃ e, e.isTerminal = true ∧
         statusWrites "collector" alwaysTimeoutRun.trace =
           [.active, e, m] ∧ (e = .timeout → m = .failed)) :=
  c4_terminal_overwritten_only_by_merge (JobContext.create "job-t")
    [({ name := "collector", timeoutSec := 7, maxRetries := 3 },
      fun _ => .timedOut)]
    { name := "collector", timeoutSec := 7, maxRetries := 3 }
    (fun _ => .timedOut) (List.mem_singleton.mpr rfl) (by decide) (by decide)
    rfl

theorem run_agent_merge_facts (jc0 : JobContext)
    (tasks : List (AgentTask × AttemptOracle)) (t : AgentTask)
    (o : AttemptOracle) (wr : AgentWrapper)
    (hmem : (t, o) ∈ registerAgents tasks)
    (hknown : (jc0.agent_state.lookup t.name).isSome = true)
    (hraised : (executeParallel jc0 tasks).raised = none)
    (hwr : (resilienceLoop t.name t.timeoutSec o 0 t.maxRetries
      Metrics.zero).2.2 = some wr) :
    statusWrites t.name (executeParallel jc0 tasks).trace =
      .active :: (statusEvs (resilienceLoop t.name t.timeoutSec o 0
        t.maxRetries Metrics.zero).2.1 ++
        [if truthyErr wr.error then AgentStatus.failed
         else AgentStatus.completed]) ∧
    sleepsOf t.name (executeParallel jc0 tasks).trace =
      sleepEvs (resilienceLoop t.name t.timeoutSec o 0 t.maxRetries
        Metrics.zero).2.1 ∧
    (executeParallel jc0 tasks).metrics.lookup t.name =
      some (resilienceLoop t.name t.timeoutSec o 0 t.maxRetries
        Metrics.zero).1 ∧
    ∃ a, (executeParallel jc0 tasks).jc.agent_state.lookup t.name =
      some a ∧ a.status = (if truthyErr wr.error then AgentStatus.failed
        else AgentStatus.completed) := by
  have hcomp := executeParallel_components jc0 tasks
  rw [hcomp.2.1] at hraised
  rw [hcomp.1, hcomp.2.2.1, hcomp.2.2.2]
  have hnd := registerAgents_nodup tasks
  have hg := gather_agent_spec (registerAgents tasks)
    ((registerAgents tasks).map (fun p => (p.1.name, Metrics.zero))) jc0 t o
    hnd hmem hknown
  have hms0 : (((registerAgents tasks).map
      (fun p => (p.1.name, Metrics.zero))).lookup t.name) =
      some Metrics.zero :=
    lookup_map_const (fun p => p.1.name) Metrics.zero _ t.name
      (List.mem_map.mpr ⟨(t, o), hmem, rfl⟩)
  rw [hms0] at hg
  simp only [Option.getD_some] at hg
  obtain ⟨hsw_g, hsl_g, hm_g, hgs_mem⟩ := hg
  have hgo : gatherPhase ((registerAgents tasks).map
      (fun p => (p.1.name, Metrics.zero))) jc0 (registerAgents tasks) =
      gatherOut jc0 tasks := rfl
  rw [hgo] at hsw_g hsl_g hm_g hgs_mem
  have hgsnd : ((gatherOut jc0 tasks).2.2.2.map Prod.fst).Nodup := by
    show ((gatherPhase _ _ _).2.2.2.map Prod.fst).Nodup
    rw [gatherPhase_gs_names]
    exact hnd
  have hknown_m : ((gatherOut jc0 tasks).1.agent_state.lookup
      t.name).isSome = true := by
    show (((gatherPhase _ _ _).1).agent_state.lookup t.name).isSome = true
    rw [lookup_isSome_iff, gatherPhase_keys, ← lookup_isSome_iff]
    exact hknown
  have hgs_mem2 : (t.name, GatherResult.val (some wr)) ∈
      (gatherOut jc0 tasks).2.2.2 := by
    rw [← hwr]
    exact hgs_mem
  obtain ⟨st, hst, hsw_m, a, hfin, hast⟩ :=
    merge_agent_spec (gatherOut jc0 tasks).2.2.2 (gatherOut jc0 tasks).1
      t.name (.val (some wr)) hgsnd hgs_mem2 hknown_m hraised
  have hmo : mergePhase (gatherOut jc0 tasks).1 (gatherOut jc0 tasks).2.2.2 =
      mergeOut jc0 tasks := rfl
  rw [hmo] at hsw_m hfin
  have hst2 : st = if truthyErr wr.error then AgentStatus.failed
      else AgentStatus.completed := by
    have hmws : mergeWriteStatus (GatherResult.val (some wr)) =
        some (if truthyErr wr.error then AgentStatus.failed
          else AgentStatus.completed) := rfl
    rw [hmws] at hst
    exact (Option.some.inj hst).symm
  refine ⟨?_, ?_, hm_g, ⟨a, hfin, hst2 ▸ hast⟩⟩
  · rw [statusWrites_append, hsw_g, hsw_m, hst2]
    rfl
  · rw [sleepsOf_append, hsl_g]
    have hms : sleepsOf t.name (mergeOut jc0 tasks).2.1 = [] := by
      show sleepsOf t.name (mergePhase _ _).2.1 = []
      exact mergePhase_no_sleeps _ _ _
    rw [hms, List.append_nil]

/-- C5, amended.  After a normally-returning `execute_parallel`, every
registered agent whose name has an `agent_state` entry (and at least one
retry) ends with exactly one entry, whose status is terminal; a
registered name with no `agent_state` entry never gains one — every write
to it is a silent no-op. -/
theorem c5_terminal_entry_per_known_agent (jc0 : JobContext)
    (tasks : List (AgentTask × AttemptOracle)) (t : AgentTask)
    (o : AttemptOracle)
    (hkeysnd : (jc0.agent_state.map Prod.fst).Nodup)
    (hmem : (t, o) ∈ registerAgents tasks)
    (hmr : 1 ≤ t.maxRetries)
    (hknown : (jc0.agent_state.lookup t.name).isSome = true)
    (hraised : (executeParallel jc0 tasks).raised = none) :
    ((executeParallel jc0 tasks).jc.agent_state.map Prod.fst).count
      t.name = 1 ∧
    (∃ a, (executeParallel jc0 tasks).jc.agent_state.lookup t.name =
      some a ∧ a.status.isTerminal = true) ∧
    (∀ n, jc0.agent_state.lookup n = none →
      (executeParallel jc0 tasks).jc.agent_state.lookup n = none) := by
  have hw := resilienceLoop_wrapper_isSome t.name t.timeoutSec o
    t.maxRetries 0 Metrics.zero hmr
  obtain ⟨wr, hwr⟩ := Option.isSome_iff_exists.mp hw
  obtain ⟨_hsw, _hsl, _hm, a, hfin, hast⟩ :=
    run_agent_merge_facts jc0 tasks t o wr hmem hknown hraised hwr
  have hkeys : (executeParallel jc0 tasks).jc.agent_state.map Prod.fst =
      jc0.agent_state.map Prod.fst := by
    rw [(executeParallel_components jc0 tasks).2.2.2]
    show ((mergePhase _ _).1.agent_state.map Prod.fst) = _
    rw [mergePhase_keys]
    show ((gatherPhase _ _ _).1.agent_state.map Prod.fst) = _
    rw [gatherPhase_keys]
  refine ⟨?_, ⟨a, hfin, ?_⟩, ?_⟩
  · rw [hkeys]
    exact List.count_eq_one_of_mem hkeysnd
      ((lookup_isSome_iff _ _).mp hknown)
  · rw [hast]
    by_cases hc : truthyErr wr.error = true
    · rw [if_pos hc]
      rfl
    · rw [if_neg hc]
      rfl
  · intro n hn
    rw [lookup_eq_none_iff, hkeys, ← lookup_eq_none_iff]
    exact hn

/-- Witness for C5 amended at the always-timing-out run: the collector
keeps exactly one entry and it is terminal, and a name absent from the
record (for example `ghost`) stays absent. -/
theorem c5_amended_witness :
    ((alwaysTimeoutRun.jc.agent_state.map Prod.fst).count "collector" = 1 ∧
      (∃ a, alwaysTimeoutRun.jc.agent_state.lookup "collector" = some a ∧
        a.status.isTerminal = true) ∧
      (∀ n, (JobContext.create "job-t").agent_state.lookup n = none →
        alwaysTimeoutRun.jc.agent_state.lookup n = none)) :=
  c5_terminal_entry_per_known_agent (JobContext.create "job-t")
    [({ name := "collector", timeoutSec := 7, maxRetries := 3 },
      fun _ => .timedOut)]
    { name := "collector", timeoutSec := 7, maxRetries := 3 }
    (fun _ => .timedOut) (by decide) (List.mem_singleton.mpr rfl)
    (by decide) (by decide) rfl

/-- C6, amended.  An agent with `max_retries = 3` whose every attempt
times out receives the writes [active, timeout, failed]; exactly two
backoff sleeps occur, 0.5 s and 1 s (no sleep follows the final
attempt); its metrics show attempt count 3 with no latency recorded; and
after the merge its final status is `failed`, not `timeout` (the wrapper
error `"timeout"` is truthy, so the merge re-records the agent as
failed). -/
theorem c6_always_timeout_run (jc0 : JobContext)
    (tasks : List (AgentTask × AttemptOracle)) (t : AgentTask)
    (o : AttemptOracle)
    (hmem : (t, o) ∈ registerAgents tasks)
    (hmr : t.maxRetries = 3)
    (ho : ∀ i, o i = .timedOut)
    (hknown : (jc0.agent_state.lookup t.name).isSome = true)
    (hraised : (executeParallel jc0 tasks).raised = none) :
    statusWrites t.name (executeParallel jc0 tasks).trace =
      [.active, .timeout, .failed] ∧
    sleepsOf t.name (executeParallel jc0 tasks).trace = [500, 1000] ∧
    (executeParallel jc0 tasks).metrics.lookup t.name =
      some { attempts := 3, totalLatencyMs := 0, maxLatencyMs := 0 } ∧
    ∃ a, (executeParallel jc0 tasks).jc.agent_state.lookup t.name =
      some a ∧ a.status = .failed := by
  have hrl := resilienceLoop_all_timeout t.name t.timeoutSec o ho
    Metrics.zero
  have hwr : (resilienceLoop t.name t.timeoutSec o 0 t.maxRetries
      Metrics.zero).2.2 =
      some ⟨t.name, none, some "timeout"⟩ := by
    rw [hmr, hrl]
  obtain ⟨hsw, hsl, hm, a, hfin, hast⟩ :=
    run_agent_merge_facts jc0 tasks t o ⟨t.name, none, some "timeout"⟩
      hmem hknown hraised hwr
  rw [hmr, hrl] at hsw hsl hm
  have htr : truthyErr (some "timeout") = true := rfl
  refine ⟨?_, ?_, ?_, ⟨a, hfin, ?_⟩⟩
  · rw [hsw]
    rfl
  · rw [hsl]
    rfl
  · rw [hm]
    rfl
  · rw [hast]
    rfl

/-- Witness for C6 amended at the concrete always-timing-out run. -/
theorem c6_amended_witness :
    statusWrites "collector" alwaysTimeoutRun.trace =
      [.active, .timeout, .failed] ∧
    sleepsOf "collector" alwaysTimeoutRun.trace = [500, 1000] ∧
    alwaysTimeoutRun.metrics.lookup "collector" =
      some { attempts := 3, totalLatencyMs := 0, maxLatencyMs := 0 } ∧
    ∃ a, alwaysTimeoutRun.jc.agent_state.lookup "collector" = some a ∧
      a.status = .failed :=
  c6_always_timeout_run (JobContext.create "job-t")
    [({ name := "collector", timeoutSec := 7, maxRetries := 3 },
      fun _ => .timedOut)]
    { name := "collector", timeoutSec := 7, maxRetries := 3 }
    (fun _ => .timedOut) (List.mem_singleton.mpr rfl) rfl (fun _ => rfl)
    (by decide) rfl

/-- C7, amended.  Every attempt — successful, raising, or timing out —
increments the per-agent attempt count, but the latency aggregates are
updated only by successful attempts: a run whose attempts all fail
leaves the cumulative and maximum latency untouched, while a successful
attempt adds its latency to the cumulative total and raises the
maximum. -/
theorem c7_metrics_on_attempts (name : String) (tmo : Nat)
    (oracle : AttemptOracle) (k attempt : Nat) (m0 : Metrics) :
    ((∀ i, (oracle i).isSuccess = false) →
      ((resilienceLoop name tmo oracle attempt k m0).1.attempts =
          m0.attempts + k ∧
        (resilienceLoop name tmo oracle attempt k m0).1.totalLatencyMs =
          m0.totalLatencyMs ∧
        (resilienceLoop name tmo oracle attempt k m0).1.maxLatencyMs =
          m0.maxLatencyMs)) ∧
    (∀ r lat, oracle attempt = .success r lat →
      resilienceLoop name tmo oracle attempt (k + 1) m0 =
        ({ attempts := m0.attempts + 1,
           totalLatencyMs := m0.totalLatencyMs + lat,
           maxLatencyMs := Nat.max m0.maxLatencyMs lat },
         [], some ⟨name, some r, none⟩)) :=
  ⟨fun h => resilienceLoop_no_success_metrics name tmo oracle h k attempt m0,
   fun r lat h => resilienceLoop_success_attempt name tmo oracle k attempt
     m0 r lat h⟩

/-- Witness for C7 amended: a single raising attempt of latency 250 ms
yields attempt count 1 and zero latency aggregates; a single successful
attempt of latency 250 ms records 250 in both aggregates. -/
theorem c7_amended_witness :
    ((resilienceLoop "collector" 5 (fun _ => .raised "boom" 250) 0 1
        Metrics.zero).1.attempts = Metrics.zero.attempts + 1 ∧
      (resilienceLoop "collector" 5 (fun _ => .raised "boom" 250) 0 1
        Metrics.zero).1.totalLatencyMs = Metrics.zero.totalLatencyMs ∧
      (resilienceLoop "collector" 5 (fun _ => .raised "boom" 250) 0 1
        Metrics.zero).1.maxLatencyMs = Metrics.zero.maxLatencyMs) ∧
    resilienceLoop "collector" 5 (fun _ => .success (.dict []) 250) 0 1
        Metrics.zero =
      ({ attempts := Metrics.zero.attempts + 1,
         totalLatencyMs := Metrics.zero.totalLatencyMs + 250,
         maxLatencyMs := Nat.max Metrics.zero.maxLatencyMs 250 },
       [], some ⟨"collector", some (.dict []), none⟩) :=
  ⟨(c7_metrics_on_attempts "collector" 5 (fun _ => .raised "boom" 250) 1 0
      Metrics.zero).1 (fun _ => rfl),
   (c7_metrics_on_attempts "collector" 5 (fun _ => .success (.dict []) 250)
      0 0 Metrics.zero).2 (.dict []) 250 rfl⟩

/-- C1.  The code violates the claim, and the spec itself flags the code
behaviour as a bug to be fixed (design note on silent cycle mishandling):
on the cyclic playbook A ↔ B the embedded `topological_sort` raises no
error — it silently returns the order [B, A] — and `execute_playbook`
executes both steps and reports overall status `"success"` with two step
results, instead of failing graph construction with
`CyclicDependencyError` and executing zero steps. -/
theorem c1_cycle_not_detected :
    (topologicalSort (buildGraph cyclePB.steps)).map (List.map Step.id) =
      .ok ["B", "A"] ∧
    (executePlaybook emptyRegistry cyclePB "e1").status = "success" ∧
    (executePlaybook emptyRegistry cyclePB "e1").steps.map
      StepReport.step_id = ["B", "A"] :=
  ⟨rfl, rfl, rfl⟩

/-- C2, counterexample.  On the `errorHandling = "continue"` playbook
`contPB` one step fails, yet the report's overall status is
`"success"`: the claim that the overall status is `failed` whenever at
least one step failed is false on the code. -/
theorem c2_counterexample :
    ((executePlaybook emptyRegistry contPB "e3").steps.map
        StepReport.status = ["failed", "success"]) ∧
    (executePlaybook emptyRegistry contPB "e3").status ≠ "failed" := by
  refine ⟨rfl, ?_⟩
  have hs : (executePlaybook emptyRegistry contPB "e3").status = "success" := rfl
  rw [hs]
  decide

/-- C3, counterexample.  Dependency-graph construction is a total
operation in the code — on the playbook whose step A depends on the
nonexistent id `"ghost"` it returns a normal graph object — and the run's
failure is a `KeyError` raised later, inside `topological_sort`, not a
`MissingDependencyError` at construction time. -/
theorem c3_counterexample :
    (buildGraph ghostPB.steps).steps.map Prod.fst = ["A"] ∧
    (buildGraph ghostPB.steps).adjacency = [("A", ["ghost"])] ∧
    topologicalSort (buildGraph ghostPB.steps) =
      .error (.keyError "ghost") ∧
    (executePlaybook emptyRegistry ghostPB "e2").error = some "\x27ghost\x27" :=
  ⟨rfl, rfl, rfl, rfl⟩

/-- C4, counterexample.  In the run whose single registered agent
`collector` always times out, the agent's `agent_state` status receives
the write sequence [active, timeout, failed]: the terminal status
`timeout` written at retry exhaustion is later overwritten with `failed`
by the post-barrier merge, so statuses are not monotone and terminal
states are re-entered. -/
theorem c4_counterexample :
    statusWrites "collector" alwaysTimeoutRun.trace =
      [.active, .timeout, .failed] ∧
    noTerminalChange (statusWrites "collector" alwaysTimeoutRun.trace) =
      false :=
  ⟨rfl, rfl⟩

/-- C5, counterexample.  Registering an agent under the name `ghost`,
which has no `agent_state` entry in the default Job Record, leaves
`agent_state` with no entry at all for that registered name after
`execute_parallel` returns (the status write is a silent no-op), refuting
the claim that every registered name ends with exactly one terminal
entry. -/
theorem c5_counterexample :
    (ghostRun.jc.agent_state.lookup "ghost") = none ∧
    ghostRun.raised = none :=
  ⟨rfl, rfl⟩

/-- C6, counterexample.  In the always-timing-out run with
`max_retries = 3` the claimed outcome — final status `timeout`, attempt
count 3, and the three backoff sleeps 0.5 s, 1 s and 2 s — is false: only
the two sleeps 0.5 s and 1 s occur (no sleep follows the final attempt)
and the merge leaves the agent `failed`, not `timeout`. -/
theorem c6_counterexample :
    c6ClaimCheck alwaysTimeoutRun "collector" = false ∧
    sleepsOf "collector" alwaysTimeoutRun.trace = [500, 1000] :=
  ⟨rfl, rfl⟩

/-- C7, counterexample.  A single attempt that raises after 250 ms of
work increments the attempt counter but leaves the cumulative and maximum
latency at 0: the claim that every attempt's latency is added to the
per-agent metrics is false — only successful attempts update the latency
aggregates. -/
theorem c7_counterexample :
    c7ClaimCheck raiseRun "collector" 250 = false ∧
    raiseRun.metrics.lookup "collector" =
      some { attempts := 1, totalLatencyMs := 0, maxLatencyMs := 0 } :=
  ⟨rfl, rfl⟩

end Civic
